import Mathlib

/-!
Shallow embedding of the ties-subset scoring routine of
`rewardbench/utils.py` (`_compute_prompt_stats` and `process_single_model`)
and verification of its specification claims.

Modelling conventions:
* Python floats are modelled as exact rationals.  The numpy values flowing
  through the aggregation step can also be `inf`, `-inf` or `nan`
  (division by zero, mean of an empty array), so they are modelled by the
  four-constructor type `NpVal` with the IEEE rules for those special
  values.
* `np.tanh` at a finite argument is a transcendental function; it is kept
  as an explicit function parameter `tF : ℚ → ℚ` of the scorer.  Its exact
  values at `inf`, `-inf` and `nan` (`1`, `-1`, `nan`), which the claims
  depend on, are hard-coded in `tanhNp`.  Theorems that need a property of
  the finite part only assume the true bound `|tanh x| ≤ 1`.
* Python exceptions are modelled by `Except PyError`, where `PyError`
  records the exception class name and message.  `int(...)` parsing is
  modelled for optional-sign decimal literals (the underscore and
  whitespace lenience of Python ints is not used by this data).
* Python dicts are modelled as association lists in insertion order,
  `defaultdict(list)` appends via `dictAppend`, plain assignment via
  `dictSet` (overwrite in place, append when fresh).
-/

attribute [local semireducible] Rat.add Rat.sub Rat.mul Rat.inv

namespace TiesScore

/-- Decidable equality for `Except`, used to evaluate closed runs. -/
instance {ε α : Type} [DecidableEq ε] [DecidableEq α] : DecidableEq (Except ε α)
  | Except.error a, Except.error b => decidable_of_iff (a = b) (by simp)
  | Except.error _, Except.ok _ => Decidable.isFalse (by simp)
  | Except.ok _, Except.error _ => Decidable.isFalse (by simp)
  | Except.ok a, Except.ok b => decidable_of_iff (a = b) (by simp)

/-- A Python exception: class name and message. -/
structure PyError where
  cls : String
  msg : String
deriving Repr, DecidableEq

/-- One entry of the `scores` field of a row: either a bare number or a
(list-wrapped) sequence of numbers, as accepted by the source
(`raw_score[0] if isinstance(raw_score, list) else raw_score`). -/
inductive RawScore where
  | scalar (q : ℚ)
  | seq (l : List ℚ)
deriving Repr, DecidableEq

/-- One row of the input dataset: the fields read by `process_single_model`
plus the `results` column it overwrites and an opaque `extra` field standing
for all other pass-through columns. -/
structure Row where
  id : String
  num_correct : ℤ
  scores : List RawScore
  results : Option ℚ := none
  extra : String := ""
deriving Repr, DecidableEq

/-- A numpy double: a finite (exact) value, an infinity, or `nan`. -/
inductive NpVal where
  | num (q : ℚ)
  | pinf
  | ninf
  | nan
deriving Repr, DecidableEq

namespace NpVal

/-- IEEE addition on `NpVal`. -/
def add : NpVal → NpVal → NpVal
  | nan, _ => nan
  | _, nan => nan
  | pinf, ninf => nan
  | ninf, pinf => nan
  | pinf, _ => pinf
  | _, pinf => pinf
  | ninf, _ => ninf
  | _, ninf => ninf
  | num a, num b => num (a + b)

/-- IEEE negation on `NpVal`. -/
def neg : NpVal → NpVal
  | nan => nan
  | pinf => ninf
  | ninf => pinf
  | num a => num (-a)

/-- IEEE subtraction on `NpVal`. -/
def sub (x y : NpVal) : NpVal := add x (neg y)

/-- IEEE multiplication on `NpVal`. -/
def mul : NpVal → NpVal → NpVal
  | nan, _ => nan
  | _, nan => nan
  | num a, num b => num (a * b)
  | num a, pinf => if 0 < a then pinf else if a < 0 then ninf else nan
  | num a, ninf => if 0 < a then ninf else if a < 0 then pinf else nan
  | pinf, num b => if 0 < b then pinf else if b < 0 then ninf else nan
  | ninf, num b => if 0 < b then ninf else if b < 0 then pinf else nan
  | pinf, pinf => pinf
  | pinf, ninf => ninf
  | ninf, pinf => ninf
  | ninf, ninf => pinf

/-- IEEE division on `NpVal`; a finite nonzero value divided by zero is a
signed infinity (numpy emits a warning but returns `inf`), `0/0` is `nan`.
Rationals have no negative zero, so the sign of a zero divisor is positive. -/
def div : NpVal → NpVal → NpVal
  | nan, _ => nan
  | _, nan => nan
  | num a, num b =>
      if b = 0 then (if 0 < a then pinf else if a < 0 then ninf else nan)
      else num (a / b)
  | num _, pinf => num 0
  | num _, ninf => num 0
  | pinf, num b => if 0 ≤ b then pinf else ninf
  | ninf, num b => if 0 ≤ b then ninf else pinf
  | pinf, pinf => nan
  | pinf, ninf => nan
  | ninf, pinf => nan
  | ninf, ninf => nan

end NpVal

/-- The largest finite IEEE double, the replacement `np.nan_to_num` uses for
`inf` (it is never reached here because `tanh` output is finite or `nan`). -/
def floatMax : ℚ := (2 ^ 53 - 1) * 2 ^ 971

/-- `np.nan_to_num(x, nan=0.0)`: `nan` becomes `0.0`; infinities become the
largest finite doubles (numpy defaults, still in force). -/
def nanToNum : NpVal → NpVal
  | NpVal.nan => NpVal.num 0
  | NpVal.pinf => NpVal.num floatMax
  | NpVal.ninf => NpVal.num (-floatMax)
  | NpVal.num q => NpVal.num q

/-- `np.tanh` lifted to `NpVal`.  The finite part is the parameter `tF`;
`tanh(inf) = 1`, `tanh(-inf) = -1` and `tanh(nan) = nan` exactly. -/
def tanhNp (tF : ℚ → ℚ) : NpVal → NpVal
  | NpVal.num q => NpVal.num (tF q)
  | NpVal.pinf => NpVal.num 1
  | NpVal.ninf => NpVal.num (-1)
  | NpVal.nan => NpVal.nan

/-- Sum of a list of numpy values (the reduction inside `np.mean`). -/
def npSum (l : List NpVal) : NpVal :=
  l.foldl NpVal.add (NpVal.num 0)

/-- `np.mean` over a list of numpy values: `nan` on the empty list
(numpy warns and returns `nan`), otherwise sum divided by length. -/
def npMean (l : List NpVal) : NpVal :=
  match l with
  | [] => NpVal.nan
  | _ => NpVal.div (npSum l) (NpVal.num l.length)

/-- `np.mean` of a boolean array: the mean of its `0/1` values. -/
def boolMean (l : List Bool) : NpVal :=
  npMean (l.map fun b => NpVal.num (if b then 1 else 0))

/-- Python `max` on a list of numbers: `ValueError` on the empty list. -/
def pyMax : List ℚ → Except PyError ℚ
  | [] => Except.error ⟨"ValueError", "max() arg is an empty sequence"⟩
  | h :: t => Except.ok (t.foldl max h)

/-- Python `min` on a list of numbers: `ValueError` on the empty list. -/
def pyMin : List ℚ → Except PyError ℚ
  | [] => Except.error ⟨"ValueError", "min() arg is an empty sequence"⟩
  | h :: t => Except.ok (t.foldl min h)

/-- The result triple of `_compute_prompt_stats`.  The third component is
annotated `float | None` in the source but is always a number when the
function returns, so it is a plain rational here. -/
structure PromptStats where
  accurate : Bool
  different_correct_margin : Option ℚ
  correct_incorrect_margin : ℚ
deriving Repr, DecidableEq

instance : Inhabited PromptStats := ⟨⟨false, none, 0⟩⟩

/-- `[s for is_corr, s in samples if is_corr]` -/
def correctScores (samples : List (Bool × ℚ)) : List ℚ :=
  samples.filterMap fun s => if s.1 then some s.2 else none

/-- `[s for is_corr, s in samples if not is_corr]` -/
def incorrectScores (samples : List (Bool × ℚ)) : List ℚ :=
  samples.filterMap fun s => if s.1 then none else some s.2

/-- `_compute_prompt_stats`: per-group accuracy and margins.  `max`/`min`
of an empty list propagate the Python `ValueError`. -/
def computePromptStats (samples : List (Bool × ℚ)) : Except PyError PromptStats := do
  let cs := correctScores samples
  let is := incorrectScores samples
  let best_correct ← pyMax cs
  let worst_correct ← pyMin cs
  let best_incorrect ← pyMax is
  let different_correct_margin :=
    if 1 < cs.length then some (best_correct - worst_correct) else none
  let correct_incorrect_margin := worst_correct - best_incorrect
  Except.ok ⟨decide (0 < correct_incorrect_margin), different_correct_margin,
    correct_incorrect_margin⟩

/-- Split a character list at every occurrence of `c`
(Python `str.split(sep)` semantics for a one-character separator). -/
def splitCh (c : Char) : List Char → List (List Char)
  | [] => [[]]
  | x :: xs =>
      let r := splitCh c xs
      if x = c then [] :: r
      else
        match r with
        | [] => [[x]]
        | h :: t => (x :: h) :: t

/-- Decimal digit value of a character. -/
def digitVal (c : Char) : Option ℕ :=
  if c.isDigit then some (c.toNat - 48) else none

/-- Parse a nonempty all-digit character list as a natural number. -/
def parseNatDigits (cs : List Char) : Option ℕ :=
  match cs with
  | [] => none
  | _ => cs.foldl (fun acc c => acc.bind fun n => (digitVal c).map fun d => 10 * n + d)
      (some 0)

/-- Python `int(s)` on the id fragment: optional sign then decimal digits,
`ValueError` otherwise. -/
def pyParseInt (s : String) : Except PyError ℤ :=
  let parse : ℤ × List Char → Except PyError ℤ := fun sd =>
    match parseNatDigits sd.2 with
    | some n => Except.ok (sd.1 * n)
    | none => Except.error ⟨"ValueError", "invalid literal for int() with base 10: " ++ s⟩
  match s.data with
  | '-' :: r => parse (-1, r)
  | '+' :: r => parse (1, r)
  | r => parse (1, r)

/-- `sample_type, prompt_id_str = sample["id"].split(":")` followed by
`int(prompt_id_str)`.  Unpacking into two variables raises `ValueError`
unless the split yields exactly two parts. -/
def parseId (s : String) : Except PyError (String × ℤ) :=
  match splitCh ':' s.data with
  | [tcs, pcs] => (pyParseInt (String.mk pcs)).map fun n => (String.mk tcs, n)
  | parts =>
      if parts.length < 2 then
        Except.error ⟨"ValueError",
          "not enough values to unpack (expected 2, got " ++ toString parts.length ++ ")"⟩
      else
        Except.error ⟨"ValueError", "too many values to unpack (expected 2)"⟩

/-- `raw_score[0] if isinstance(raw_score, list) else raw_score`
(indexing an empty list raises `IndexError`). -/
def normalizeScore : RawScore → Except PyError ℚ
  | RawScore.scalar q => Except.ok q
  | RawScore.seq [] => Except.error ⟨"IndexError", "list index out of range"⟩
  | RawScore.seq (x :: _) => Except.ok x

/-- One `(key, (is_correct, score))` contribution to `grouped_samples`. -/
abbrev Entry := (String × ℤ) × (Bool × ℚ)

/-- Error-propagating map over a list (the order and abort behaviour of a
Python `for` loop). -/
def mapEx (f : α → Except PyError β) : List α → Except PyError (List β)
  | [] => Except.ok []
  | x :: xs => do
      let y ← f x
      let ys ← mapEx f xs
      Except.ok (y :: ys)

/-- The contributions of one dataset row to `grouped_samples`: parse the id,
then pair each normalized score with `i < num_correct`. -/
def contrib (r : Row) : Except PyError (List Entry) := do
  let tp ← parseId r.id
  let prs ← mapEx
    (fun iraw : ℕ × RawScore =>
      (normalizeScore iraw.2).map fun q => (decide ((iraw.1 : ℤ) < r.num_correct), q))
    r.scores.enum
  Except.ok (prs.map fun pr => (tp, pr))

/-- The sample loop of `process_single_model`, flattened to the list of all
`(key, pair)` contributions in order; aborts at the first failing row. -/
def parseRows : List Row → Except PyError (List Entry)
  | [] => Except.ok []
  | r :: rs => do
      let l ← contrib r
      let rest ← parseRows rs
      Except.ok (l ++ rest)

/-- Association-list map in Python dict insertion order. -/
abbrev GroupMap := List ((String × ℤ) × List (Bool × ℚ))

/-- First-match lookup in an association list. -/
def alookup {α β : Type} [DecidableEq α] : List (α × β) → α → Option β
  | [], _ => none
  | (k, v) :: r, a => if k = a then some v else alookup r a

/-- `defaultdict(list)` append: extend the existing group in place, or add a
new key at the end. -/
def dictAppend (g : GroupMap) (k : String × ℤ) (p : Bool × ℚ) : GroupMap :=
  match g with
  | [] => [(k, [p])]
  | (k', l) :: rest =>
      if k' = k then (k', l ++ [p]) :: rest else (k', l) :: dictAppend rest k p

/-- Build `grouped_samples` from the flattened contributions. -/
def buildMap : List Entry → GroupMap → GroupMap
  | [], g => g
  | e :: es, g => buildMap es (dictAppend g e.1 e.2)

/-- Python dict assignment `m[k] = v`: overwrite in place, append if fresh. -/
def dictSet (m : List (ℤ × PromptStats)) (k : ℤ) (v : PromptStats) :
    List (ℤ × PromptStats) :=
  match m with
  | [] => [(k, v)]
  | (k', v') :: rest =>
      if k' = k then (k, v) :: rest else (k', v') :: dictSet rest k v

/-- The stats loop: compute `_compute_prompt_stats` for each group in
insertion order and store it in `ref_stats` (type `"ref"`) or `tied_stats`
(any other type). -/
def statsFold : GroupMap → List (ℤ × PromptStats) × List (ℤ × PromptStats) →
    Except PyError (List (ℤ × PromptStats) × List (ℤ × PromptStats))
  | [], acc => Except.ok acc
  | (k, gr) :: rest, acc => do
      let st ← computePromptStats gr
      if k.1 = "ref" then statsFold rest (dictSet acc.1 k.2 st, acc.2)
      else statsFold rest (acc.1, dictSet acc.2 k.2 st)

/-- `ref_stats` and `tied_stats` from the grouped samples. -/
def statsMaps (g : GroupMap) :
    Except PyError (List (ℤ × PromptStats) × List (ℤ × PromptStats)) :=
  statsFold g ([], [])

/-- Lookup with the (unreachable) default used to keep lookups total. -/
def alookupD (m : List (ℤ × PromptStats)) (p : ℤ) : PromptStats :=
  (alookup m p).getD default

/-- `np.mean([s[0] for s in stats.values()]) if stats else 0.0`. -/
def accOf (m : List (ℤ × PromptStats)) : NpVal :=
  if m.isEmpty then NpVal.num 0
  else boolMean (m.map fun e => e.2.accurate)

/-- `all_prompts = set(ref_stats) & set(tied_stats)` (the downstream means
are order-insensitive in exact arithmetic, so a canonical enumeration in
`ref_stats` insertion order is used). -/
def commonsOf (refS tiedS : List (ℤ × PromptStats)) : List ℤ :=
  (refS.map Prod.fst).filter fun p => (alookup tiedS p).isSome

/-- `diff_corr_margin = np.array([tied_stats[pid][1] for pid in all_prompts])` -/
def dcmArr (tiedS : List (ℤ × PromptStats)) (cps : List ℤ) : List (Option ℚ) :=
  cps.map fun p => (alookupD tiedS p).different_correct_margin

/-- `corr_incorrect_ties = np.array([tied_stats[pid][2] for pid in all_prompts])` -/
def cimTiedArr (tiedS : List (ℤ × PromptStats)) (cps : List ℤ) : List ℚ :=
  cps.map fun p => (alookupD tiedS p).correct_incorrect_margin

/-- `corr_incorrect_ref = np.array([ref_stats[pid][2] for pid in all_prompts])` -/
def cimRefArr (refS : List (ℤ × PromptStats)) (cps : List ℤ) : List ℚ :=
  cps.map fun p => (alookupD refS p).correct_incorrect_margin

/-- `np.minimum(corr_incorrect_ref, corr_incorrect_ties)` -/
def minArr (refS tiedS : List (ℤ × PromptStats)) (cps : List ℤ) : List ℚ :=
  List.zipWith min (cimRefArr refS cps) (cimTiedArr tiedS cps)

/-- All-or-nothing extraction of the optional margins; `none` means the
object-dtype comparison in numpy raises `TypeError`. -/
def seqOpts : List (Option ℚ) → Option (List ℚ)
  | [] => some []
  | none :: _ => none
  | some x :: r => (seqOpts r).map fun l => x :: l

/-- `correctness_preferred = np.mean(corr_incorrect_ties > diff_corr_margin)` -/
def cpVal (tiedS : List (ℤ × PromptStats)) (cps : List ℤ) (dcms : List ℚ) : NpVal :=
  boolMean (List.zipWith (fun c d => decide (c > d)) (cimTiedArr tiedS cps) dcms)

/-- `correctness_preferred_hard = np.mean(np.minimum(...) > diff_corr_margin)` -/
def cphVal (refS tiedS : List (ℤ × PromptStats)) (cps : List ℤ) (dcms : List ℚ) : NpVal :=
  boolMean (List.zipWith (fun c d => decide (c > d)) (minArr refS tiedS cps) dcms)

/-- One entry of `np.nan_to_num(np.tanh(np.minimum(...) / diff_corr_margin - 1), nan=0.0)`:
the per-prompt margin score. -/
def marginScoreVal (tF : ℚ → ℚ) (mn d : ℚ) : NpVal :=
  nanToNum (tanhNp tF (NpVal.sub (NpVal.div (NpVal.num mn) (NpVal.num d)) (NpVal.num 1)))

/-- `correctness_margin_score = float(np.mean(margin_scores))` -/
def cmsVal (tF : ℚ → ℚ) (refS tiedS : List (ℤ × PromptStats)) (cps : List ℤ)
    (dcms : List ℚ) : NpVal :=
  npMean (List.zipWith (marginScoreVal tF) (minArr refS tiedS cps) dcms)

/-- The weighted overall score:
`0.30*tied_accuracy + 0.30*ref_accuracy + 0.20*correctness_preferred
 + 0.20*correctness_preferred_hard + 0.01*correctness_margin_score`. -/
def overallVal (tF : ℚ → ℚ) (refS tiedS : List (ℤ × PromptStats)) (cps : List ℤ)
    (dcms : List ℚ) : NpVal :=
  NpVal.add
    (NpVal.add
      (NpVal.add
        (NpVal.add (NpVal.mul (NpVal.num (3/10)) (accOf tiedS))
          (NpVal.mul (NpVal.num (3/10)) (accOf refS)))
        (NpVal.mul (NpVal.num (1/5)) (cpVal tiedS cps dcms)))
      (NpVal.mul (NpVal.num (1/5)) (cphVal refS tiedS cps dcms)))
    (NpVal.mul (NpVal.num (1/100)) (cmsVal tF refS tiedS cps dcms))

/-- The aggregation part of `process_single_model`, from the flattened
contributions to the overall score.  A `None` margin inside the common
prompts raises the numpy object-dtype comparison `TypeError`. -/
def scoreParsed (tF : ℚ → ℚ) (flat : List Entry) : Except PyError NpVal := do
  let rt ← statsMaps (buildMap flat [])
  let cps := commonsOf rt.1 rt.2
  match seqOpts (dcmArr rt.2 cps) with
  | none => Except.error ⟨"TypeError",
      "unsupported comparison between instances of float and NoneType"⟩
  | some dcms => Except.ok (overallVal tF rt.1 rt.2 cps dcms)

/-- Reset the `results` column of a row (`add_column("results", [None]*len)`). -/
def clearResults (r : Row) : Row := { r with results := none }

/-- `process_single_model`: returns the dataset with the `results` column
overwritten by `None` together with the overall score, or the first Python
exception raised. -/
def processSingleModel (tF : ℚ → ℚ) (ds : List Row) :
    Except PyError (List Row × NpVal) := do
  let flat ← parseRows ds
  let s ← scoreParsed tF flat
  Except.ok (ds.map clearResults, s)

/-- Placeholder finite-tanh: every closed evaluation below is independent of
the finite part of `tanh` (the arguments there are `±inf` or `nan`), so any
bounded function works; this one satisfies `|tanhZero x| ≤ 1`. -/
def tanhZero : ℚ → ℚ := fun _ => 0

/-! ### Helper lemmas on Python `max`/`min` (left folds) -/

theorem foldl_max_mem (t : List ℚ) : ∀ h : ℚ, t.foldl max h ∈ h :: t := by
  induction t with
  | nil => intro h; simp
  | cons x xs ih =>
      intro h
      have hmem := ih (max h x)
      simp only [List.foldl_cons]
      rcases List.mem_cons.mp hmem with h1 | h1
      · rcases max_choice h x with h2 | h2 <;> rw [h1, h2] <;> simp
      · exact List.mem_cons.mpr (Or.inr (List.mem_cons.mpr (Or.inr h1)))

theorem le_foldl_max (t : List ℚ) : ∀ h x : ℚ, x ∈ h :: t → x ≤ t.foldl max h := by
  induction t with
  | nil =>
      intro h x hx
      rw [List.mem_singleton] at hx
      simp [hx]
  | cons y ys ih =>
      intro h x hx
      simp only [List.foldl_cons]
      rcases List.mem_cons.mp hx with rfl | hx'
      · exact le_trans (le_max_left _ _) (ih (max x y) _ (List.mem_cons_self _ _))
      · rcases List.mem_cons.mp hx' with rfl | hx''
        · exact le_trans (le_max_right _ _) (ih (max h x) _ (List.mem_cons_self _ _))
        · exact ih _ _ (List.mem_cons.mpr (Or.inr hx''))

theorem foldl_min_mem (t : List ℚ) : ∀ h : ℚ, t.foldl min h ∈ h :: t := by
  induction t with
  | nil => intro h; simp
  | cons x xs ih =>
      intro h
      have hmem := ih (min h x)
      simp only [List.foldl_cons]
      rcases List.mem_cons.mp hmem with h1 | h1
      · rcases min_choice h x with h2 | h2 <;> rw [h1, h2] <;> simp
      · exact List.mem_cons.mpr (Or.inr (List.mem_cons.mpr (Or.inr h1)))

theorem foldl_min_le (t : List ℚ) : ∀ h x : ℚ, x ∈ h :: t → t.foldl min h ≤ x := by
  induction t with
  | nil =>
      intro h x hx
      rw [List.mem_singleton] at hx
      simp [hx]
  | cons y ys ih =>
      intro h x hx
      simp only [List.foldl_cons]
      rcases List.mem_cons.mp hx with rfl | hx'
      · exact le_trans (ih (min x y) _ (List.mem_cons_self _ _)) (min_le_left _ _)
      · rcases List.mem_cons.mp hx' with rfl | hx''
        · exact le_trans (ih (min h x) _ (List.mem_cons_self _ _)) (min_le_right _ _)
        · exact ih _ _ (List.mem_cons.mpr (Or.inr hx''))

/-- `max(l)` on a nonempty list returns an element that bounds the list. -/
theorem pyMax_ok (l : List ℚ) (hl : l ≠ []) :
    ∃ M, pyMax l = Except.ok M ∧ M ∈ l ∧ ∀ x ∈ l, x ≤ M := by
  match l, hl with
  | h :: t, _ =>
      exact ⟨t.foldl max h, rfl, foldl_max_mem t h, fun x hx => le_foldl_max t h x hx⟩

/-- `min(l)` on a nonempty list returns an element that bounds the list. -/
theorem pyMin_ok (l : List ℚ) (hl : l ≠ []) :
    ∃ m, pyMin l = Except.ok m ∧ m ∈ l ∧ ∀ x ∈ l, m ≤ x := by
  match l, hl with
  | h :: t, _ =>
      exact ⟨t.foldl min h, rfl, foldl_min_mem t h, fun x hx => foldl_min_le t h x hx⟩

/-- Successful run of `_compute_prompt_stats`, in terms of the `max`/`min`
results on the two partitions. -/
theorem computePromptStats_ok (samples : List (Bool × ℚ))
    (hc : correctScores samples ≠ []) (hi : incorrectScores samples ≠ []) :
    ∃ bc wc bi,
      pyMax (correctScores samples) = Except.ok bc ∧
      pyMin (correctScores samples) = Except.ok wc ∧
      pyMax (incorrectScores samples) = Except.ok bi ∧
      computePromptStats samples = Except.ok
        ⟨decide (0 < wc - bi),
         if 1 < (correctScores samples).length then some (bc - wc) else none,
         wc - bi⟩ := by
  obtain ⟨bc, hbc, _, _⟩ := pyMax_ok _ hc
  obtain ⟨wc, hwc, _, _⟩ := pyMin_ok _ hc
  obtain ⟨bi, hbi, _, _⟩ := pyMax_ok _ hi
  refine ⟨bc, wc, bi, hbc, hwc, hbi, ?_⟩
  unfold computePromptStats
  dsimp only
  rw [hbc, hwc, hbi]
  rfl

/-! ### Claim C1 -/

/-- C1: for every prompt group with at least one correct and at least one
incorrect entry, `_compute_prompt_stats` succeeds, `correct_incorrect_margin`
is the minimum correct score minus the maximum incorrect score, and
`accurate` is true exactly when that margin is strictly positive, i.e. when
the worst correct score strictly outscores the best incorrect score. -/
theorem C1_margin_and_accuracy (samples : List (Bool × ℚ))
    (hc : correctScores samples ≠ []) (hi : incorrectScores samples ≠ []) :
    ∃ st wc bi,
      computePromptStats samples = Except.ok st ∧
      wc ∈ correctScores samples ∧ (∀ x ∈ correctScores samples, wc ≤ x) ∧
      bi ∈ incorrectScores samples ∧ (∀ x ∈ incorrectScores samples, x ≤ bi) ∧
      st.correct_incorrect_margin = wc - bi ∧
      (st.accurate = true ↔ 0 < st.correct_incorrect_margin) ∧
      (st.accurate = true ↔ bi < wc) := by
  obtain ⟨wc, hwc, hwmem, hwle⟩ := pyMin_ok _ hc
  obtain ⟨bi, hbi, hbmem, hble⟩ := pyMax_ok _ hi
  obtain ⟨bc, wc', bi', hbc', hwc', hbi', hok⟩ := computePromptStats_ok samples hc hi
  rw [hwc] at hwc'
  rw [hbi] at hbi'
  cases hwc'
  cases hbi'
  refine ⟨_, wc, bi, hok, hwmem, hwle, hbmem, hble, rfl, ?_, ?_⟩ <;>
    simp [decide_eq_true_iff, sub_pos]

/-- Witness for C1 at a concrete group. -/
theorem C1_margin_and_accuracy_witness :
    correctScores [(true, 5), (false, 2)] ≠ [] ∧
    incorrectScores [(true, 5), (false, 2)] ≠ [] ∧
    ∃ st wc bi,
      computePromptStats [(true, 5), (false, 2)] = Except.ok st ∧
      wc ∈ correctScores [(true, 5), (false, 2)] ∧
      (∀ x ∈ correctScores [(true, 5), (false, 2)], wc ≤ x) ∧
      bi ∈ incorrectScores [(true, 5), (false, 2)] ∧
      (∀ x ∈ incorrectScores [(true, 5), (false, 2)], x ≤ bi) ∧
      st.correct_incorrect_margin = wc - bi ∧
      (st.accurate = true ↔ 0 < st.correct_incorrect_margin) ∧
      (st.accurate = true ↔ bi < wc) :=
  ⟨by decide, by decide,
    C1_margin_and_accuracy [(true, 5), (false, 2)] (by decide) (by decide)⟩

/-! ### Claim C6 -/

/-- C6: for a group with exactly one correct entry (and an incorrect entry),
`different_correct_margin` is `None`, never a default `0.0`; for a group with
at least two correct entries (and an incorrect entry) it is the maximum
correct score minus the minimum correct score. -/
theorem C6_different_correct_margin (samples : List (Bool × ℚ)) :
    ((correctScores samples).length = 1 → incorrectScores samples ≠ [] →
      ∃ st, computePromptStats samples = Except.ok st ∧
        st.different_correct_margin = none) ∧
    (2 ≤ (correctScores samples).length → incorrectScores samples ≠ [] →
      ∃ st bc wc,
        computePromptStats samples = Except.ok st ∧
        bc ∈ correctScores samples ∧ (∀ x ∈ correctScores samples, x ≤ bc) ∧
        wc ∈ correctScores samples ∧ (∀ x ∈ correctScores samples, wc ≤ x) ∧
        st.different_correct_margin = some (bc - wc)) := by
  constructor
  · intro h1 hi
    have hc : correctScores samples ≠ [] := by
      intro h; rw [h] at h1; simp at h1
    obtain ⟨bc, wc, bi, _, _, _, hok⟩ := computePromptStats_ok samples hc hi
    exact ⟨_, hok, by simp [h1]⟩
  · intro h2 hi
    have hc : correctScores samples ≠ [] := by
      intro h; rw [h] at h2; simp at h2
    obtain ⟨bc, hbc, hbmem, hble⟩ := pyMax_ok _ hc
    obtain ⟨wc, hwc, hwmem, hwle⟩ := pyMin_ok _ hc
    obtain ⟨bc', wc', bi', hbc', hwc', hbi', hok⟩ := computePromptStats_ok samples hc hi
    rw [hbc] at hbc'
    rw [hwc] at hwc'
    cases hbc'
    cases hwc'
    refine ⟨_, bc, wc, hok, hbmem, hble, hwmem, hwle, ?_⟩
    simp only []
    rw [if_pos (by omega)]

/-- Witness for C6: both branches at concrete groups. -/
theorem C6_different_correct_margin_witness :
    ((correctScores [(true, 5), (false, 1)]).length = 1 ∧
      incorrectScores [(true, 5), (false, 1)] ≠ [] ∧
      ∃ st, computePromptStats [(true, 5), (false, 1)] = Except.ok st ∧
        st.different_correct_margin = none) ∧
    (2 ≤ (correctScores [(true, 5), (true, 3), (false, 1)]).length ∧
      incorrectScores [(true, 5), (true, 3), (false, 1)] ≠ [] ∧
      ∃ st bc wc,
        computePromptStats [(true, 5), (true, 3), (false, 1)] = Except.ok st ∧
        bc ∈ correctScores [(true, 5), (true, 3), (false, 1)] ∧
        (∀ x ∈ correctScores [(true, 5), (true, 3), (false, 1)], x ≤ bc) ∧
        wc ∈ correctScores [(true, 5), (true, 3), (false, 1)] ∧
        (∀ x ∈ correctScores [(true, 5), (true, 3), (false, 1)], wc ≤ x) ∧
        st.different_correct_margin = some (bc - wc)) :=
  ⟨⟨by decide, by decide,
      (C6_different_correct_margin [(true, 5), (false, 1)]).1 (by decide) (by decide)⟩,
   ⟨by decide, by decide,
      (C6_different_correct_margin [(true, 5), (true, 3), (false, 1)]).2
        (by decide) (by decide)⟩⟩

/-- Case analysis of the per-prompt margin score at a zero divisor:
`min/0` is a signed infinity or `0/0 = nan`, `tanh` maps these to `1`, `-1`
or `nan`, and `nan_to_num` maps `nan` to `0`. -/
theorem marginScoreVal_zero_divisor (tF : ℚ → ℚ) (mn : ℚ) :
    marginScoreVal tF mn 0 =
      NpVal.num (if 0 < mn then 1 else if mn < 0 then -1 else 0) := by
  have hdiv : NpVal.div (NpVal.num mn) (NpVal.num 0) =
      if 0 < mn then NpVal.pinf else if mn < 0 then NpVal.ninf else NpVal.nan := by
    simp [NpVal.div]
  rcases lt_trichotomy mn 0 with h | h | h
  · have h1 : ¬ 0 < mn := by linarith
    simp [marginScoreVal, hdiv, h, h1, NpVal.sub, NpVal.neg, NpVal.add, tanhNp, nanToNum]
  · subst h
    simp [marginScoreVal, hdiv, NpVal.sub, NpVal.neg, NpVal.add, tanhNp, nanToNum]
  · simp [marginScoreVal, hdiv, h, NpVal.sub, NpVal.neg, NpVal.add, tanhNp, nanToNum]

/-! ### Claim C2 -/

/-- C2 counterexample: a common prompt whose tied group has exactly two
correct samples with identical scores (`diff_corr_margin = 0`) but a strictly
positive `min(ref_margin, tied_margin) = 3`.  The per-prompt margin score is
`tanh(3/0 - 1) = tanh(inf) = 1.0`, not `0.0` (no value of the finite part of
`tanh` is involved), and the overall score is `1.01`, not the `1.00` the
claim would give. -/
theorem C2_counterexample :
    marginScoreVal tanhZero 3 0 = NpVal.num 1 ∧
    NpVal.num 1 ≠ NpVal.num 0 ∧
    (processSingleModel tanhZero
      [{ id := "ref:0", num_correct := 1,
         scores := [RawScore.scalar 5, RawScore.scalar 2] },
       { id := "tied:0", num_correct := 2,
         scores := [RawScore.scalar 4, RawScore.scalar 4, RawScore.scalar 1] }]).map
        Prod.snd = Except.ok (NpVal.num (101/100)) ∧
    (101 : ℚ)/100 ≠ 1 :=
  ⟨by decide, by decide, by decide, by decide⟩

/-- C2 (amended): for a common prompt with tied `different_correct_margin = 0`,
the per-prompt margin score is `0.0` only when `min(ref_margin, tied_margin)`
is itself `0` (the `0/0 = nan` case mapped to `0.0` by `nan_to_num`); when the
minimum is positive it is `1.0` and when negative it is `-1.0` (`tanh` of a
signed infinity).  In all cases it is a plain number, never `nan` and never an
error. -/
theorem C2_margin_zero_divisor_cases (tF : ℚ → ℚ) (mn : ℚ) :
    marginScoreVal tF mn 0 =
      NpVal.num (if 0 < mn then 1 else if mn < 0 then -1 else 0) :=
  marginScoreVal_zero_divisor tF mn

/-! ### Claim C3 -/

/-- C3 counterexample: a dataset with one valid ref prompt and no tied prompt
has no common prompt ids, and the run returns `nan` as overall score (numpy
mean of an empty array), not `0.0` rates and not
`0.30*tied_accuracy + 0.30*ref_accuracy = 0.30`. -/
theorem C3_counterexample :
    (processSingleModel tanhZero
      [{ id := "ref:0", num_correct := 1,
         scores := [RawScore.scalar 5, RawScore.scalar 2] }]).map Prod.snd =
      Except.ok NpVal.nan ∧
    NpVal.nan ≠ NpVal.num (3/10 * 0 + 3/10 * 1) ∧
    NpVal.nan ≠ NpVal.num 0 :=
  ⟨by decide, by decide, by decide⟩

/-- `x + nan = nan` for every numpy value `x`. -/
theorem NpVal.add_nan (x : NpVal) : NpVal.add x NpVal.nan = NpVal.nan := by
  cases x <;> rfl

/-- C3 (amended): when `ref_stats` and `tied_stats` share no prompt id, the
common-prompt arrays are empty, so `correctness_preferred`,
`correctness_preferred_hard` and `correctness_margin_score` are all numpy
means of empty arrays, i.e. `nan`, and the returned overall score is `nan`
(the `nan` term propagates through the weighted sum), not
`0.30*tied_accuracy + 0.30*ref_accuracy`. -/
theorem C3_no_common_prompts_nan (tF : ℚ → ℚ) (ds : List Row)
    (flat : List Entry) (refS tiedS : List (ℤ × PromptStats))
    (hp : parseRows ds = Except.ok flat)
    (hs : statsMaps (buildMap flat []) = Except.ok (refS, tiedS))
    (hc : commonsOf refS tiedS = []) :
    cpVal tiedS (commonsOf refS tiedS) [] = NpVal.nan ∧
    cphVal refS tiedS (commonsOf refS tiedS) [] = NpVal.nan ∧
    cmsVal tF refS tiedS (commonsOf refS tiedS) [] = NpVal.nan ∧
    processSingleModel tF ds = Except.ok (ds.map clearResults, NpVal.nan) := by
  have hcms : cmsVal tF refS tiedS [] [] = NpVal.nan := by
    simp [cmsVal, minArr, cimRefArr, cimTiedArr, npMean]
  have hov : overallVal tF refS tiedS [] [] = NpVal.nan := by
    simp [overallVal, hcms, NpVal.mul, NpVal.add_nan]
  refine ⟨?_, ?_, ?_, ?_⟩
  · simp [hc, cpVal, cimTiedArr, boolMean, npMean]
  · simp [hc, cphVal, minArr, cimRefArr, cimTiedArr, boolMean, npMean]
  · rw [hc]; exact hcms
  · unfold processSingleModel
    rw [hp]
    show (do
        let s ← scoreParsed tF flat
        Except.ok (ds.map clearResults, s)) = _
    unfold scoreParsed
    rw [hs]
    show (match seqOpts (dcmArr tiedS (commonsOf refS tiedS)) with
      | none => Except.error _
      | some dcms =>
          Except.ok (overallVal tF refS tiedS (commonsOf refS tiedS) dcms)).bind
        (fun s => Except.ok (ds.map clearResults, s)) = _
    rw [hc]
    show (Except.ok (overallVal tF refS tiedS [] [])).bind
      (fun s => Except.ok (ds.map clearResults, s)) = _
    rw [hov]
    rfl

/-- Witness for C3 (amended) at a concrete one-prompt dataset. -/
theorem C3_no_common_prompts_nan_witness :
    parseRows [{ id := "ref:0", num_correct := 1,
                 scores := [RawScore.scalar 5, RawScore.scalar 2] }] =
      Except.ok [(("ref", 0), (true, 5)), (("ref", 0), (false, 2))] ∧
    statsMaps (buildMap [(("ref", 0), (true, 5)), (("ref", 0), (false, 2))] []) =
      Except.ok ([(0, ⟨true, none, 3⟩)], []) ∧
    commonsOf [(0, ⟨true, none, 3⟩)] ([] : List (ℤ × PromptStats)) = [] ∧
    processSingleModel tanhZero
      [{ id := "ref:0", num_correct := 1,
         scores := [RawScore.scalar 5, RawScore.scalar 2] }] =
      Except.ok ([{ id := "ref:0", num_correct := 1,
                    scores := [RawScore.scalar 5, RawScore.scalar 2],
                    results := none }],
        NpVal.nan) :=
  ⟨by decide, by decide, by decide,
    (C3_no_common_prompts_nan tanhZero
      [{ id := "ref:0", num_correct := 1,
         scores := [RawScore.scalar 5, RawScore.scalar 2] }]
      [(("ref", 0), (true, 5)), (("ref", 0), (false, 2))]
      [(0, ⟨true, none, 3⟩)] []
      (by decide) (by decide) (by decide)).2.2.2⟩

/-! ### Inversion helpers for the exception monad -/

theorem ok_bind {α β : Type} (a : α) (f : α → Except PyError β) :
    (Except.ok a >>= f) = f a := rfl

theorem error_bind {α β : Type} (e : PyError) (f : α → Except PyError β) :
    ((Except.error e : Except PyError α) >>= f) = Except.error e := rfl

/-- A successful run of `process_single_model` decomposes into a successful
parse and a successful aggregation, and the returned dataset is the input
with its `results` column cleared. -/
theorem processSingleModel_ok_iff (tF : ℚ → ℚ) (ds : List Row)
    (p : List Row × NpVal) :
    processSingleModel tF ds = Except.ok p ↔
      ∃ flat s, parseRows ds = Except.ok flat ∧ scoreParsed tF flat = Except.ok s ∧
        p = (ds.map clearResults, s) := by
  constructor
  · intro h
    unfold processSingleModel at h
    cases hpr : parseRows ds with
    | error e => rw [hpr, error_bind] at h; cases h
    | ok flat =>
        rw [hpr, ok_bind] at h
        cases hsc : scoreParsed tF flat with
        | error e => rw [hsc, error_bind] at h; cases h
        | ok s =>
            rw [hsc, ok_bind] at h
            injection h with h
            exact ⟨flat, s, rfl, hsc, h.symm⟩
  · rintro ⟨flat, s, hpr, hsc, rfl⟩
    unfold processSingleModel
    rw [hpr, ok_bind, hsc, ok_bind]

/-! ### Claim C9 -/

/-- C9: whenever `process_single_model` succeeds, the returned dataset is the
input dataset with the `results` column of every row set to `None`; all other
columns of every row are unchanged (the rows are rebuilt field-by-field by
`clearResults`, which touches only `results`). -/
theorem C9_results_column_cleared (tF : ℚ → ℚ) (ds d : List Row) (s : NpVal)
    (h : processSingleModel tF ds = Except.ok (d, s)) :
    d = ds.map clearResults ∧
    (∀ r ∈ d, r.results = none) ∧
    d.map Row.id = ds.map Row.id ∧
    d.map Row.num_correct = ds.map Row.num_correct ∧
    d.map Row.scores = ds.map Row.scores ∧
    d.map Row.extra = ds.map Row.extra := by
  obtain ⟨flat, s', _, _, hp⟩ := (processSingleModel_ok_iff tF ds (d, s)).mp h
  injection hp with h1 h2
  subst h1
  refine ⟨rfl, ?_, ?_, ?_, ?_, ?_⟩
  · intro r hr
    obtain ⟨r', _, rfl⟩ := List.mem_map.mp hr
    rfl
  all_goals simp [clearResults, Function.comp]

/-- Witness for C9 at a concrete dataset. -/
theorem C9_results_column_cleared_witness :
    processSingleModel tanhZero
      [{ id := "ref:0", num_correct := 1,
         scores := [RawScore.scalar 5, RawScore.scalar 2],
         results := some 7, extra := "keep" }] =
      Except.ok ([{ id := "ref:0", num_correct := 1,
                    scores := [RawScore.scalar 5, RawScore.scalar 2],
                    results := none, extra := "keep" }], NpVal.nan) ∧
    ([{ id := "ref:0", num_correct := 1,
        scores := [RawScore.scalar 5, RawScore.scalar 2],
        results := none, extra := "keep" }] : List Row) =
      List.map clearResults
        [{ id := "ref:0", num_correct := 1,
           scores := [RawScore.scalar 5, RawScore.scalar 2],
           results := some 7, extra := "keep" }] ∧
    ∀ r ∈ ([{ id := "ref:0", num_correct := 1,
              scores := [RawScore.scalar 5, RawScore.scalar 2],
              results := none, extra := "keep" }] : List Row), r.results = none :=
  ⟨by decide,
   (C9_results_column_cleared tanhZero
     [{ id := "ref:0", num_correct := 1,
        scores := [RawScore.scalar 5, RawScore.scalar 2],
        results := some 7, extra := "keep" }]
     [{ id := "ref:0", num_correct := 1,
        scores := [RawScore.scalar 5, RawScore.scalar 2],
        results := none, extra := "keep" }]
     NpVal.nan (by decide)).1,
   (C9_results_column_cleared tanhZero
     [{ id := "ref:0", num_correct := 1,
        scores := [RawScore.scalar 5, RawScore.scalar 2],
        results := some 7, extra := "keep" }]
     [{ id := "ref:0", num_correct := 1,
        scores := [RawScore.scalar 5, RawScore.scalar 2],
        results := none, extra := "keep" }]
     NpVal.nan (by decide)).2.1⟩

/-! ### Claim C7 -/

/-- C7 counterexample: on the id `"badid"` (no colon) the call aborts with
the generic Python `ValueError` raised by tuple unpacking, not with a
dedicated `MalformedIdError` (no such exception class exists in the code). -/
theorem C7_counterexample :
    processSingleModel tanhZero
      [{ id := "badid", num_correct := 1, scores := [RawScore.scalar 1] }] =
      Except.error ⟨"ValueError", "not enough values to unpack (expected 2, got 1)"⟩ ∧
    "ValueError" ≠ "MalformedIdError" :=
  ⟨by decide, by decide⟩

/-- Every failure of `int(...)` on an id fragment is a `ValueError`. -/
theorem pyParseInt_error_cls (s : String) (e : PyError)
    (h : pyParseInt s = Except.error e) : e.cls = "ValueError" := by
  unfold pyParseInt at h
  split at h <;> (dsimp only at h; split at h <;> (cases h <;> rfl))

/-- Every failure of the id parsing step is a `ValueError` (tuple unpacking
or `int(...)`). -/
theorem parseId_error_cls (s : String) (e : PyError)
    (h : parseId s = Except.error e) : e.cls = "ValueError" := by
  unfold parseId at h
  split at h
  · rename_i tcs pcs hsp
    cases hp : pyParseInt (String.mk pcs) with
    | ok v => rw [hp] at h; cases h
    | error e' =>
        rw [hp] at h
        cases h
        exact pyParseInt_error_cls _ _ hp
  · split at h <;> (cases h; rfl)

/-- A row whose id fails to parse makes its whole contribution fail. -/
theorem contrib_error_of_parseId (r : Row) (e : PyError)
    (h : parseId r.id = Except.error e) : contrib r = Except.error e := by
  unfold contrib
  rw [h, error_bind]

/-- If some row of the dataset has a failing contribution, the whole sample
loop aborts with an error. -/
theorem parseRows_error_of_mem (ds : List Row) (r : Row) (hr : r ∈ ds)
    (e : PyError) (h : contrib r = Except.error e) :
    ∃ e', parseRows ds = Except.error e' := by
  induction ds with
  | nil => cases hr
  | cons x rest ih =>
      rcases List.mem_cons.mp hr with rfl | hr'
      · exact ⟨e, by simp only [parseRows]; rw [h, error_bind]⟩
      · cases hc : contrib x with
        | error e2 => exact ⟨e2, by simp only [parseRows]; rw [hc, error_bind]⟩
        | ok l =>
            obtain ⟨e', he'⟩ := ih hr'
            exact ⟨e', by simp only [parseRows]; rw [hc, ok_bind, he', error_bind]⟩

/-- C7 (amended): a sample whose `id` does not parse as
`"<type>:<integer>"` makes the whole scoring call abort with an error before
any aggregate is produced, but that error is the generic Python `ValueError`
raised by tuple unpacking or `int(...)`, not a dedicated `MalformedIdError`
(no such class exists in the code). -/
theorem C7_malformed_id_aborts (tF : ℚ → ℚ) (ds : List Row) (r : Row)
    (hr : r ∈ ds) (hbad : (parseId r.id).isOk = false) :
    (∃ e, processSingleModel tF ds = Except.error e) ∧
    (∀ e, parseId r.id = Except.error e → e.cls = "ValueError") := by
  constructor
  · cases hp : parseId r.id with
    | ok v => rw [hp] at hbad; cases hbad
    | error e =>
        obtain ⟨e', he'⟩ :=
          parseRows_error_of_mem ds r hr e (contrib_error_of_parseId r e hp)
        exact ⟨e', by unfold processSingleModel; rw [he', error_bind]⟩
  · intro e he
    exact parseId_error_cls _ e he

/-- Witness for C7 (amended) at the concrete id `"badid"`. -/
theorem C7_malformed_id_aborts_witness :
    ({ id := "badid", num_correct := 1, scores := [RawScore.scalar 1] } : Row) ∈
      [({ id := "badid", num_correct := 1, scores := [RawScore.scalar 1] } : Row)] ∧
    (parseId "badid").isOk = false ∧
    (∃ e, processSingleModel tanhZero
      [{ id := "badid", num_correct := 1, scores := [RawScore.scalar 1] }] =
        Except.error e) ∧
    (∀ e, parseId "badid" = Except.error e → e.cls = "ValueError") :=
  ⟨by decide, by decide,
   (C7_malformed_id_aborts tanhZero
     [{ id := "badid", num_correct := 1, scores := [RawScore.scalar 1] }]
     { id := "badid", num_correct := 1, scores := [RawScore.scalar 1] }
     (by decide) (by decide)).1,
   (C7_malformed_id_aborts tanhZero
     [{ id := "badid", num_correct := 1, scores := [RawScore.scalar 1] }]
     { id := "badid", num_correct := 1, scores := [RawScore.scalar 1] }
     (by decide) (by decide)).2⟩

/-! ### Claim C8 -/

/-- C8 counterexample: a group with no incorrect entry makes
`_compute_prompt_stats` fail with the generic empty-sequence `ValueError`
from `max()`, and the whole call aborts with that same generic error — there
is no `InvalidGroupError` class in the code. -/
theorem C8_counterexample :
    computePromptStats [(true, 1)] =
      Except.error ⟨"ValueError", "max() arg is an empty sequence"⟩ ∧
    processSingleModel tanhZero
      [{ id := "tied:0", num_correct := 5, scores := [RawScore.scalar 1] }] =
      Except.error ⟨"ValueError", "max() arg is an empty sequence"⟩ ∧
    "ValueError" ≠ "InvalidGroupError" :=
  ⟨by decide, by decide, by decide⟩

/-- A group with an empty correct or incorrect side fails inside
`_compute_prompt_stats` with the `max()` empty-sequence `ValueError`. -/
theorem computePromptStats_error_of_empty (samples : List (Bool × ℚ))
    (h : correctScores samples = [] ∨ incorrectScores samples = []) :
    computePromptStats samples =
      Except.error ⟨"ValueError", "max() arg is an empty sequence"⟩ := by
  unfold computePromptStats
  dsimp only
  rcases h with h | h
  · rw [h]
    rfl
  · cases hcs : correctScores samples with
    | nil => rw [h]; rfl
    | cons a t => rw [h]; rfl

/-- Membership from a successful association-list lookup. -/
theorem alookup_mem {α β : Type} [DecidableEq α] (l : List (α × β)) (k : α)
    (v : β) (h : alookup l k = some v) : (k, v) ∈ l := by
  induction l with
  | nil => cases h
  | cons x rest ih =>
      obtain ⟨a, b⟩ := x
      simp only [alookup] at h
      by_cases hk : a = k
      · rw [if_pos hk] at h
        injection h with h
        subst hk
        subst h
        exact List.mem_cons_self _ _
      · rw [if_neg hk] at h
        exact List.mem_cons.mpr (Or.inr (ih h))

/-- If any group in the map fails its stats computation, the stats loop
aborts with an error, whatever the accumulators hold. -/
theorem statsFold_error (g : GroupMap) (k : String × ℤ)
    (samples : List (Bool × ℚ)) (hmem : (k, samples) ∈ g) (e : PyError)
    (h : computePromptStats samples = Except.error e) :
    ∀ acc, ∃ e', statsFold g acc = Except.error e' := by
  induction g with
  | nil => cases hmem
  | cons x rest ih =>
      intro acc
      obtain ⟨kx, grx⟩ := x
      rcases List.mem_cons.mp hmem with heq | hmem'
      · injection heq with h1 h2
        subst h1
        subst h2
        exact ⟨e, by simp only [statsFold]; rw [h, error_bind]⟩
      · cases hx : computePromptStats grx with
        | error e2 => exact ⟨e2, by simp only [statsFold]; rw [hx, error_bind]⟩
        | ok st =>
            by_cases hk : kx.1 = "ref"
            · obtain ⟨e', he'⟩ := ih hmem' (dictSet acc.1 kx.2 st, acc.2)
              exact ⟨e', by simp only [statsFold]; rw [hx, ok_bind, if_pos hk]; exact he'⟩
            · obtain ⟨e', he'⟩ := ih hmem' (acc.1, dictSet acc.2 kx.2 st)
              exact ⟨e', by simp only [statsFold]; rw [hx, ok_bind, if_neg hk]; exact he'⟩

/-- C8 (amended): a prompt group with an empty correct or incorrect side
makes `_compute_prompt_stats` fail, and a scoring call whose grouped samples
contain such a group aborts — but with the generic empty-sequence
`ValueError` propagated from `max()`, not with a dedicated
`InvalidGroupError` (no such class exists in the code). -/
theorem C8_empty_group_aborts (samples : List (Bool × ℚ))
    (h : correctScores samples = [] ∨ incorrectScores samples = []) :
    computePromptStats samples =
      Except.error ⟨"ValueError", "max() arg is an empty sequence"⟩ ∧
    ∀ (tF : ℚ → ℚ) (flat : List Entry) (k : String × ℤ),
      alookup (buildMap flat []) k = some samples →
      ∃ e, scoreParsed tF flat = Except.error e := by
  have hmain := computePromptStats_error_of_empty samples h
  refine ⟨hmain, ?_⟩
  intro tF flat k hl
  obtain ⟨e', he'⟩ :=
    statsFold_error (buildMap flat []) k samples (alookup_mem _ _ _ hl) _ hmain ([], [])
  exact ⟨e', by unfold scoreParsed statsMaps; rw [he', error_bind]⟩

/-- Witness for C8 (amended) at a concrete all-correct group. -/
theorem C8_empty_group_aborts_witness :
    (correctScores [(true, 1)] = [] ∨ incorrectScores [(true, 1)] = []) ∧
    computePromptStats [(true, 1)] =
      Except.error ⟨"ValueError", "max() arg is an empty sequence"⟩ ∧
    alookup (buildMap [(("tied", 0), (true, 1))] []) ("tied", 0) = some [(true, 1)] ∧
    ∃ e, scoreParsed tanhZero [(("tied", 0), (true, 1))] = Except.error e :=
  ⟨by decide,
   (C8_empty_group_aborts [(true, 1)] (by decide)).1,
   by decide,
   (C8_empty_group_aborts [(true, 1)] (by decide)).2 tanhZero
     [(("tied", 0), (true, 1))] ("tied", 0) (by decide)⟩

/-! ### Numeric bounds helpers -/

theorem NpVal.div_num_num (a b : ℚ) (hb : b ≠ 0) :
    NpVal.div (NpVal.num a) (NpVal.num b) = NpVal.num (a / b) := by
  simp [NpVal.div, hb]

theorem foldl_add_num {α : Type} (f : α → ℚ) (xs : List α) : ∀ c : ℚ,
    (xs.map fun x => NpVal.num (f x)).foldl NpVal.add (NpVal.num c) =
      NpVal.num (c + (xs.map f).sum) := by
  induction xs with
  | nil => intro c; simp
  | cons x t ih =>
      intro c
      simp only [List.map_cons, List.foldl_cons]
      rw [show NpVal.add (NpVal.num c) (NpVal.num (f x)) = NpVal.num (c + f x) from rfl,
        ih, List.sum_cons]
      congr 1
      ring

theorem npSum_map_num {α : Type} (f : α → ℚ) (xs : List α) :
    npSum (xs.map fun x => NpVal.num (f x)) = NpVal.num ((xs.map f).sum) := by
  unfold npSum
  rw [foldl_add_num]
  congr 1
  ring

theorem npMean_cons (a : NpVal) (l : List NpVal) :
    npMean (a :: l) = NpVal.div (npSum (a :: l)) (NpVal.num (a :: l).length) := rfl

theorem npMean_map_num {α : Type} (f : α → ℚ) (xs : List α) (h : xs ≠ []) :
    npMean (xs.map fun x => NpVal.num (f x)) =
      NpVal.num ((xs.map f).sum / xs.length) := by
  match xs, h with
  | x :: t, _ =>
      have h1 : npMean ((x :: t).map fun y => NpVal.num (f y)) =
          NpVal.div (npSum ((x :: t).map fun y => NpVal.num (f y)))
            (NpVal.num (((x :: t).map fun y => NpVal.num (f y)).length)) := rfl
      have hlen : ((((x :: t).map fun y => NpVal.num (f y)).length : ℕ) : ℚ) =
          (((x :: t).length : ℕ) : ℚ) := by
        rw [List.length_map]
      rw [h1, npSum_map_num, hlen, NpVal.div_num_num]
      intro hc
      rw [Nat.cast_eq_zero] at hc
      simp at hc

theorem sum_if_nonneg (l : List Bool) :
    0 ≤ (l.map fun b => if b then (1:ℚ) else 0).sum := by
  apply List.sum_nonneg
  intro x hx
  obtain ⟨b, _, rfl⟩ := List.mem_map.mp hx
  split <;> norm_num

theorem sum_if_le_length (l : List Bool) :
    (l.map fun b => if b then (1:ℚ) else 0).sum ≤ l.length := by
  have h := List.sum_le_card_nsmul (l.map fun b => if b then (1:ℚ) else 0) 1 ?_
  · rw [List.length_map] at h
    have h2 : (l.length • (1:ℚ)) = (l.length : ℚ) := by rw [nsmul_eq_mul, mul_one]
    rw [h2] at h
    exact h
  · intro x hx
    obtain ⟨b, _, rfl⟩ := List.mem_map.mp hx
    split <;> norm_num

/-- A numpy mean of a nonempty boolean array is a number in `[0, 1]`. -/
theorem boolMean_bounds (l : List Bool) (h : l ≠ []) :
    ∃ q, boolMean l = NpVal.num q ∧ 0 ≤ q ∧ q ≤ 1 := by
  refine ⟨_, npMean_map_num _ l h, ?_, ?_⟩
  · exact div_nonneg (sum_if_nonneg l) (Nat.cast_nonneg _)
  · rw [div_le_one]
    · exact sum_if_le_length l
    · exact_mod_cast List.length_pos.mpr h

theorem abs_sum_le_length (qs : List ℚ) (h : ∀ q ∈ qs, |q| ≤ 1) :
    |qs.sum| ≤ qs.length := by
  rw [abs_le]
  have hs : (qs.length • (1:ℚ)) = (qs.length : ℚ) := by rw [nsmul_eq_mul, mul_one]
  have hn : (qs.length • (-1:ℚ)) = -(qs.length : ℚ) := by rw [nsmul_eq_mul, mul_neg_one]
  constructor
  · have hl := List.card_nsmul_le_sum qs (-1) fun x hx => (abs_le.mp (h x hx)).1
    rw [hn] at hl
    exact hl
  · have hl := List.sum_le_card_nsmul qs 1 fun x hx => (abs_le.mp (h x hx)).2
    rw [hs] at hl
    exact hl

/-- Extract the underlying rational list from an all-finite numpy array. -/
theorem all_num_exists_list (l : List NpVal)
    (hb : ∀ v ∈ l, ∃ q, v = NpVal.num q ∧ |q| ≤ 1) :
    ∃ qs : List ℚ, l = qs.map NpVal.num ∧ ∀ q ∈ qs, |q| ≤ 1 := by
  induction l with
  | nil => exact ⟨[], rfl, by simp⟩
  | cons v t ih =>
      obtain ⟨q, rfl, hq⟩ := hb v (List.mem_cons_self _ _)
      obtain ⟨qs, rfl, hqs⟩ := ih fun w hw => hb w (List.mem_cons.mpr (Or.inr hw))
      refine ⟨q :: qs, rfl, ?_⟩
      intro x hx
      rcases List.mem_cons.mp hx with rfl | hx'
      · exact hq
      · exact hqs _ hx'

/-- A numpy mean of a nonempty array of numbers in `[-1, 1]` is a number in
`[-1, 1]`. -/
theorem npMean_abs_le_one (l : List NpVal) (h : l ≠ [])
    (hb : ∀ v ∈ l, ∃ q, v = NpVal.num q ∧ |q| ≤ 1) :
    ∃ e, npMean l = NpVal.num e ∧ |e| ≤ 1 := by
  obtain ⟨qs, rfl, hq⟩ := all_num_exists_list l hb
  have hqs : qs ≠ [] := by
    intro hc
    subst hc
    simp at h
  refine ⟨qs.sum / qs.length, ?_, ?_⟩
  · have hmean := npMean_map_num (fun q => q) qs hqs
    have hid : (qs.map fun q : ℚ => q) = qs := List.map_id' qs
    rw [hid] at hmean
    exact hmean
  · rw [abs_div]
    have hlen0 : (0:ℚ) < qs.length := by exact_mod_cast List.length_pos.mpr hqs
    rw [abs_of_pos hlen0, div_le_one hlen0]
    exact abs_sum_le_length qs hq

/-- Bound on one per-prompt margin score, assuming only `|tanh x| ≤ 1` on
finite arguments. -/
theorem marginScoreVal_num_bound (tF : ℚ → ℚ) (ht : ∀ x, |tF x| ≤ 1)
    (mn d : ℚ) : ∃ q, marginScoreVal tF mn d = NpVal.num q ∧ |q| ≤ 1 := by
  by_cases hd : d = 0
  · subst hd
    refine ⟨_, marginScoreVal_zero_divisor tF mn, ?_⟩
    split_ifs <;> norm_num
  · refine ⟨tF (mn / d - 1), ?_, ht _⟩
    unfold marginScoreVal
    rw [NpVal.div_num_num _ _ hd]
    rfl

theorem of_mem_zipWith {α β γ : Type} (f : α → β → γ) (l1 : List α) :
    ∀ (l2 : List β), ∀ c ∈ List.zipWith f l1 l2,
      ∃ a b, a ∈ l1 ∧ b ∈ l2 ∧ c = f a b := by
  induction l1 with
  | nil => intro l2 c hc; simp at hc
  | cons a t ih =>
      intro l2 c hc
      cases l2 with
      | nil => simp at hc
      | cons b u =>
          rw [List.zipWith_cons_cons] at hc
          rcases List.mem_cons.mp hc with rfl | hc'
          · exact ⟨a, b, List.mem_cons_self _ _, List.mem_cons_self _ _, rfl⟩
          · obtain ⟨a', b', ha, hb, rfl⟩ := ih u c hc'
            exact ⟨a', b', List.mem_cons.mpr (Or.inr ha),
              List.mem_cons.mpr (Or.inr hb), rfl⟩

theorem seqOpts_length (l : List (Option ℚ)) :
    ∀ r, seqOpts l = some r → r.length = l.length := by
  induction l with
  | nil =>
      intro r h
      rw [show seqOpts [] = some [] from rfl] at h
      injection h with h
      subst h
      rfl
  | cons o t ih =>
      intro r h
      cases o with
      | none =>
          rw [show seqOpts (none :: t) = (none : Option (List ℚ)) from rfl] at h
          cases h
      | some x =>
          rw [show seqOpts (some x :: t) = (seqOpts t).map (fun u => x :: u) from rfl] at h
          cases hs : seqOpts t with
          | none => rw [hs] at h; cases h
          | some u =>
              rw [hs] at h
              injection h with h
              subst h
              simp [ih u hs]

/-- A nonempty commons list forces both stats maps to be nonempty. -/
theorem commons_nonempty_facts (refS tiedS : List (ℤ × PromptStats))
    (hne : commonsOf refS tiedS ≠ []) : refS ≠ [] ∧ tiedS ≠ [] := by
  constructor
  · intro h
    subst h
    simp [commonsOf] at hne
  · intro h
    subst h
    apply hne
    unfold commonsOf
    apply List.filter_eq_nil_iff.mpr
    intro p _
    rw [show alookup ([] : List (ℤ × PromptStats)) p = none from rfl]
    simp

/-- The per-type accuracy is always a number in `[0, 1]` (it is `0.0` when
the stats map is empty, a mean of booleans otherwise). -/
theorem accOf_bounds (m : List (ℤ × PromptStats)) :
    ∃ q, accOf m = NpVal.num q ∧ 0 ≤ q ∧ q ≤ 1 := by
  unfold accOf
  by_cases h : m.isEmpty
  · rw [if_pos h]
    exact ⟨0, rfl, le_refl 0, by norm_num⟩
  · rw [if_neg h]
    apply boolMean_bounds
    intro hc
    rw [List.map_eq_nil_iff] at hc
    subst hc
    simp at h

theorem cpVal_bounds (tiedS : List (ℤ × PromptStats)) (cps : List ℤ)
    (dcms : List ℚ) (hne : cps ≠ []) (hlen : dcms.length = cps.length) :
    ∃ q, cpVal tiedS cps dcms = NpVal.num q ∧ 0 ≤ q ∧ q ≤ 1 := by
  apply boolMean_bounds
  intro hc
  have := congrArg List.length hc
  rw [List.length_zipWith] at this
  simp only [cimTiedArr, List.length_map, List.length_nil, hlen, min_self] at this
  exact hne (List.length_eq_zero.mp this)

theorem cphVal_bounds (refS tiedS : List (ℤ × PromptStats)) (cps : List ℤ)
    (dcms : List ℚ) (hne : cps ≠ []) (hlen : dcms.length = cps.length) :
    ∃ q, cphVal refS tiedS cps dcms = NpVal.num q ∧ 0 ≤ q ∧ q ≤ 1 := by
  apply boolMean_bounds
  intro hc
  have := congrArg List.length hc
  rw [List.length_zipWith] at this
  simp only [minArr, List.length_zipWith, cimRefArr, cimTiedArr, List.length_map,
    List.length_nil, hlen, min_self] at this
  exact hne (List.length_eq_zero.mp this)

theorem cmsVal_bounds (tF : ℚ → ℚ) (ht : ∀ x, |tF x| ≤ 1)
    (refS tiedS : List (ℤ × PromptStats)) (cps : List ℤ) (dcms : List ℚ)
    (hne : cps ≠ []) (hlen : dcms.length = cps.length) :
    ∃ e, cmsVal tF refS tiedS cps dcms = NpVal.num e ∧ -1 ≤ e ∧ e ≤ 1 := by
  unfold cmsVal
  have hb : ∀ v ∈ List.zipWith (marginScoreVal tF) (minArr refS tiedS cps) dcms,
      ∃ q, v = NpVal.num q ∧ |q| ≤ 1 := by
    intro v hv
    obtain ⟨a, b, _, _, rfl⟩ := of_mem_zipWith _ _ _ v hv
    obtain ⟨q, hq, hq1⟩ := marginScoreVal_num_bound tF ht a b
    exact ⟨q, hq, hq1⟩
  have hnz : List.zipWith (marginScoreVal tF) (minArr refS tiedS cps) dcms ≠ [] := by
    intro hc
    have := congrArg List.length hc
    rw [List.length_zipWith] at this
    simp only [minArr, List.length_zipWith, cimRefArr, cimTiedArr, List.length_map,
      List.length_nil, hlen, min_self] at this
    exact hne (List.length_eq_zero.mp this)
  obtain ⟨e, he, he1⟩ := npMean_abs_le_one _ hnz hb
  exact ⟨e, he, (abs_le.mp he1).1, (abs_le.mp he1).2⟩

/-- Unfolding the successful aggregation to the weighted overall value. -/
theorem scoreParsed_eq_overall (tF : ℚ → ℚ) (flat : List Entry)
    (refS tiedS : List (ℤ × PromptStats)) (dcms : List ℚ)
    (hs : statsMaps (buildMap flat []) = Except.ok (refS, tiedS))
    (hseq : seqOpts (dcmArr tiedS (commonsOf refS tiedS)) = some dcms) :
    scoreParsed tF flat =
      Except.ok (overallVal tF refS tiedS (commonsOf refS tiedS) dcms) := by
  unfold scoreParsed
  rw [hs, ok_bind]
  dsimp only
  rw [hseq]

/-- The weighted sum in terms of rational components. -/
theorem overallVal_num (tF : ℚ → ℚ) (refS tiedS : List (ℤ × PromptStats))
    (cps : List ℤ) (dcms : List ℚ) (a b c d e : ℚ)
    (ha : accOf tiedS = NpVal.num a) (hb : accOf refS = NpVal.num b)
    (hc : cpVal tiedS cps dcms = NpVal.num c)
    (hd : cphVal refS tiedS cps dcms = NpVal.num d)
    (he : cmsVal tF refS tiedS cps dcms = NpVal.num e) :
    overallVal tF refS tiedS cps dcms =
      NpVal.num (3/10 * a + 3/10 * b + 1/5 * c + 1/5 * d + 1/100 * e) := by
  unfold overallVal
  rw [ha, hb, hc, hd, he]
  rfl

/-! ### Claim C4 -/

/-- C4 counterexample: a valid dataset (one well-formed ref group and one
well-formed tied group) on which the overall score is exactly `-0.01`, below
the lower end `-0.01*0.5 = -0.005` of the interval the claim states.  Both
accuracies and both preferred rates are `0`, the tied group has two equal
correct scores below the incorrect one, and the margin term is
`tanh(-4/0 - 1) = tanh(-inf) = -1`, contributing `0.01 * (-1)`. -/
theorem C4_counterexample :
    (processSingleModel tanhZero
      [{ id := "ref:0", num_correct := 1,
         scores := [RawScore.scalar 1, RawScore.scalar 5] },
       { id := "tied:0", num_correct := 2,
         scores := [RawScore.scalar 1, RawScore.scalar 1, RawScore.scalar 5] }]).map
      Prod.snd = Except.ok (NpVal.num (-(1/100))) ∧
    ¬ (-(1/100) * (1/2) ≤ (-(1/100) : ℚ)) :=
  ⟨by decide, by decide⟩

/-- C4 (amended): on a successful run the overall score is exactly the
weighted sum `0.30*tied_accuracy + 0.30*ref_accuracy +
0.20*correctness_preferred + 0.20*correctness_preferred_hard +
0.01*correctness_margin_score`, and, provided at least one common prompt
exists (so that no term is the `nan` mean of an empty array) and `tanh` is
bounded by one in absolute value, it lies in `[-0.01, 1.01]` — not in the
claimed `[-0.01*0.5, 1.01]`, whose lower end is too high. -/
theorem C4_overall_formula_and_bounds (tF : ℚ → ℚ) (ht : ∀ x, |tF x| ≤ 1)
    (ds : List Row) (flat : List Entry) (refS tiedS : List (ℤ × PromptStats))
    (dcms : List ℚ)
    (hp : parseRows ds = Except.ok flat)
    (hs : statsMaps (buildMap flat []) = Except.ok (refS, tiedS))
    (hseq : seqOpts (dcmArr tiedS (commonsOf refS tiedS)) = some dcms)
    (hne : commonsOf refS tiedS ≠ []) :
    ∃ a b c d e : ℚ,
      accOf tiedS = NpVal.num a ∧ 0 ≤ a ∧ a ≤ 1 ∧
      accOf refS = NpVal.num b ∧ 0 ≤ b ∧ b ≤ 1 ∧
      cpVal tiedS (commonsOf refS tiedS) dcms = NpVal.num c ∧ 0 ≤ c ∧ c ≤ 1 ∧
      cphVal refS tiedS (commonsOf refS tiedS) dcms = NpVal.num d ∧ 0 ≤ d ∧ d ≤ 1 ∧
      cmsVal tF refS tiedS (commonsOf refS tiedS) dcms = NpVal.num e ∧
        -1 ≤ e ∧ e ≤ 1 ∧
      processSingleModel tF ds =
        Except.ok (ds.map clearResults,
          NpVal.num (3/10 * a + 3/10 * b + 1/5 * c + 1/5 * d + 1/100 * e)) ∧
      -(1/100) ≤ 3/10 * a + 3/10 * b + 1/5 * c + 1/5 * d + 1/100 * e ∧
      3/10 * a + 3/10 * b + 1/5 * c + 1/5 * d + 1/100 * e ≤ 101/100 := by
  obtain ⟨hrne, htne⟩ := commons_nonempty_facts refS tiedS hne
  have hlen : dcms.length = (commonsOf refS tiedS).length := by
    have := seqOpts_length _ _ hseq
    rw [this]
    simp [dcmArr]
  obtain ⟨a, ha, ha0, ha1⟩ := accOf_bounds tiedS
  obtain ⟨b, hb, hb0, hb1⟩ := accOf_bounds refS
  obtain ⟨c, hc, hc0, hc1⟩ := cpVal_bounds tiedS _ dcms hne hlen
  obtain ⟨d, hd, hd0, hd1⟩ := cphVal_bounds refS tiedS _ dcms hne hlen
  obtain ⟨e, he, he0, he1⟩ := cmsVal_bounds tF ht refS tiedS _ dcms hne hlen
  refine ⟨a, b, c, d, e, ha, ha0, ha1, hb, hb0, hb1, hc, hc0, hc1, hd, hd0, hd1,
    he, he0, he1, ?_, by linarith, by linarith⟩
  apply (processSingleModel_ok_iff tF ds _).mpr
  refine ⟨flat, _, hp, ?_, rfl⟩
  rw [scoreParsed_eq_overall tF flat refS tiedS dcms hs hseq,
    overallVal_num tF refS tiedS _ dcms a b c d e ha hb hc hd he]

/-- Witness for C4 (amended) at a concrete two-prompt dataset
(overall score `1.01`). -/
theorem C4_overall_formula_and_bounds_witness :
    (∀ x : ℚ, |tanhZero x| ≤ 1) ∧
    parseRows
      [{ id := "ref:0", num_correct := 1,
         scores := [RawScore.scalar 5, RawScore.scalar 2] },
       { id := "tied:0", num_correct := 2,
         scores := [RawScore.scalar 4, RawScore.scalar 4, RawScore.scalar 1] }] =
      Except.ok
        [(("ref", 0), (true, 5)), (("ref", 0), (false, 2)),
         (("tied", 0), (true, 4)), (("tied", 0), (true, 4)),
         (("tied", 0), (false, 1))] ∧
    statsMaps (buildMap
        [(("ref", 0), (true, 5)), (("ref", 0), (false, 2)),
         (("tied", 0), (true, 4)), (("tied", 0), (true, 4)),
         (("tied", 0), (false, 1))] []) =
      Except.ok ([(0, ⟨true, none, 3⟩)], [(0, ⟨true, some 0, 3⟩)]) ∧
    (∃ a b c d e : ℚ,
      accOf [(0, (⟨true, some 0, 3⟩ : PromptStats))] = NpVal.num a ∧ 0 ≤ a ∧ a ≤ 1 ∧
      accOf [(0, (⟨true, none, 3⟩ : PromptStats))] = NpVal.num b ∧ 0 ≤ b ∧ b ≤ 1 ∧
      cpVal [(0, ⟨true, some 0, 3⟩)]
          (commonsOf [(0, ⟨true, none, 3⟩)] [(0, ⟨true, some 0, 3⟩)]) [0] =
        NpVal.num c ∧ 0 ≤ c ∧ c ≤ 1 ∧
      cphVal [(0, ⟨true, none, 3⟩)] [(0, ⟨true, some 0, 3⟩)]
          (commonsOf [(0, ⟨true, none, 3⟩)] [(0, ⟨true, some 0, 3⟩)]) [0] =
        NpVal.num d ∧ 0 ≤ d ∧ d ≤ 1 ∧
      cmsVal tanhZero [(0, ⟨true, none, 3⟩)] [(0, ⟨true, some 0, 3⟩)]
          (commonsOf [(0, ⟨true, none, 3⟩)] [(0, ⟨true, some 0, 3⟩)]) [0] =
        NpVal.num e ∧ -1 ≤ e ∧ e ≤ 1 ∧
      processSingleModel tanhZero
        [{ id := "ref:0", num_correct := 1,
           scores := [RawScore.scalar 5, RawScore.scalar 2] },
         { id := "tied:0", num_correct := 2,
           scores := [RawScore.scalar 4, RawScore.scalar 4, RawScore.scalar 1] }] =
        Except.ok
          ([{ id := "ref:0", num_correct := 1,
              scores := [RawScore.scalar 5, RawScore.scalar 2] },
            { id := "tied:0", num_correct := 2,
              scores := [RawScore.scalar 4, RawScore.scalar 4, RawScore.scalar 1] }].map
            clearResults,
          NpVal.num (3/10 * a + 3/10 * b + 1/5 * c + 1/5 * d + 1/100 * e)) ∧
      -(1/100) ≤ 3/10 * a + 3/10 * b + 1/5 * c + 1/5 * d + 1/100 * e ∧
      3/10 * a + 3/10 * b + 1/5 * c + 1/5 * d + 1/100 * e ≤ 101/100) :=
  ⟨fun x => by simp [tanhZero], by decide, by decide,
   C4_overall_formula_and_bounds tanhZero (fun x => by simp [tanhZero])
     [{ id := "ref:0", num_correct := 1,
        scores := [RawScore.scalar 5, RawScore.scalar 2] },
      { id := "tied:0", num_correct := 2,
        scores := [RawScore.scalar 4, RawScore.scalar 4, RawScore.scalar 1] }]
     [(("ref", 0), (true, 5)), (("ref", 0), (false, 2)),
      (("tied", 0), (true, 4)), (("tied", 0), (true, 4)),
      (("tied", 0), (false, 1))]
     [(0, ⟨true, none, 3⟩)] [(0, ⟨true, some 0, 3⟩)] [0]
     (by decide) (by decide) (by decide) (by decide)⟩

/-! ### Claim C10: any sample type other than `"ref"` is grouped as tied -/

/-- Rename sample type `ty` to `"tied"` in a grouping key. -/
def renameKey (ty : String) (k : String × ℤ) : String × ℤ :=
  if k.1 = ty then ("tied", k.2) else k

/-- Rename sample type `ty` to `"tied"` in one contribution. -/
def renameEntry (ty : String) (e : Entry) : Entry := (renameKey ty e.1, e.2)

/-- Apply a key renaming to a grouped-samples map. -/
def mapKeys (rn : String × ℤ → String × ℤ) (g : GroupMap) : GroupMap :=
  g.map fun kv => (rn kv.1, kv.2)

theorem dictAppend_keys_subset (g : GroupMap) (k : String × ℤ) (p : Bool × ℚ) :
    ∀ k', k' ∈ (dictAppend g k p).map Prod.fst →
      k' ∈ g.map Prod.fst ∨ k' = k := by
  induction g with
  | nil =>
      intro k' h
      simp [dictAppend] at h
      exact Or.inr h
  | cons x rest ih =>
      intro k' h
      obtain ⟨kx, lx⟩ := x
      by_cases hk : kx = k
      · rw [show dictAppend ((kx, lx) :: rest) k p = (kx, lx ++ [p]) :: rest from by
          simp [dictAppend, hk]] at h
        simp only [List.map_cons] at h ⊢
        exact Or.inl h
      · rw [show dictAppend ((kx, lx) :: rest) k p = (kx, lx) :: dictAppend rest k p from by
          simp [dictAppend, hk]] at h
        simp only [List.map_cons, List.mem_cons] at h ⊢
        rcases h with rfl | h
        · exact Or.inl (Or.inl rfl)
        · rcases ih k' h with h' | h'
          · exact Or.inl (Or.inr h')
          · exact Or.inr h'

theorem dictAppend_mapKeys (rn : String × ℤ → String × ℤ) (g : GroupMap)
    (k : String × ℤ) (p : Bool × ℚ)
    (hinj : ∀ k' ∈ g.map Prod.fst, rn k' = rn k → k' = k) :
    dictAppend (mapKeys rn g) (rn k) p = mapKeys rn (dictAppend g k p) := by
  induction g with
  | nil => rfl
  | cons x rest ih =>
      obtain ⟨kx, lx⟩ := x
      by_cases hk : kx = k
      · subst hk
        simp [mapKeys, dictAppend]
      · have hrk : rn kx ≠ rn k := fun hc =>
          hk (hinj kx (by simp) hc)
        have ih' := ih fun k' hk' hc =>
          hinj k' (by simp only [List.map_cons, List.mem_cons]; exact Or.inr hk') hc
        simp [mapKeys, dictAppend, hk, hrk] at ih' ⊢
        exact ih'

theorem buildMap_mapKeys (rn : String × ℤ → String × ℤ) :
    ∀ (flat : List Entry) (g : GroupMap),
      (∀ k1, (k1 ∈ g.map Prod.fst ∨ k1 ∈ flat.map Prod.fst) →
        ∀ k2, (k2 ∈ g.map Prod.fst ∨ k2 ∈ flat.map Prod.fst) →
          rn k1 = rn k2 → k1 = k2) →
      buildMap (flat.map fun e => (rn e.1, e.2)) (mapKeys rn g) =
        mapKeys rn (buildMap flat g) := by
  intro flat
  induction flat with
  | nil => intro g _; rfl
  | cons e es ih =>
      intro g hinj
      simp only [List.map_cons, buildMap]
      rw [dictAppend_mapKeys rn g e.1 e.2 fun k' hk' hc =>
        hinj k' (Or.inl hk') e.1 (Or.inr (by simp)) hc]
      apply ih
      intro k1 hk1 k2 hk2 hc
      have hlift : ∀ k', (k' ∈ (dictAppend g e.1 e.2).map Prod.fst ∨
          k' ∈ es.map Prod.fst) →
          (k' ∈ g.map Prod.fst ∨ k' ∈ (e :: es).map Prod.fst) := by
        intro k' hk'
        rcases hk' with hk' | hk'
        · rcases dictAppend_keys_subset g e.1 e.2 k' hk' with h' | h'
          · exact Or.inl h'
          · exact Or.inr (by simp [h'])
        · exact Or.inr (by simp only [List.map_cons, List.mem_cons]; exact Or.inr hk')
      exact hinj k1 (hlift k1 hk1) k2 (hlift k2 hk2) hc

theorem statsFold_mapKeys (rn : String × ℤ → String × ℤ)
    (hty : ∀ k, ((rn k).1 = "ref" ↔ k.1 = "ref") ∧ (rn k).2 = k.2) :
    ∀ (g : GroupMap) acc, statsFold (mapKeys rn g) acc = statsFold g acc := by
  intro g
  induction g with
  | nil => intro acc; rfl
  | cons x rest ih =>
      intro acc
      obtain ⟨kx, gx⟩ := x
      show statsFold ((rn kx, gx) :: mapKeys rn rest) acc = _
      simp only [statsFold]
      cases hst : computePromptStats gx with
      | error e => rw [error_bind, error_bind]
      | ok st =>
          rw [ok_bind, ok_bind, (hty kx).2]
          by_cases hk : kx.1 = "ref"
          · rw [if_pos ((hty kx).1.mpr hk), if_pos hk, ih]
          · rw [if_neg fun hc => hk ((hty kx).1.mp hc), if_neg hk, ih]

theorem statsMaps_mapKeys (rn : String × ℤ → String × ℤ)
    (hty : ∀ k, ((rn k).1 = "ref" ↔ k.1 = "ref") ∧ (rn k).2 = k.2)
    (g : GroupMap) : statsMaps (mapKeys rn g) = statsMaps g :=
  statsFold_mapKeys rn hty g ([], [])

/-- Renaming a non-`"ref"` sample type to `"tied"` (when that does not merge
two groups) does not change the aggregation at all: the group lands in
`tied_stats` under the same prompt id either way. -/
theorem scoreParsed_rename (tF : ℚ → ℚ) (ty : String) (hty : ty ≠ "ref")
    (flat : List Entry)
    (hfresh : ∀ p, ("tied", p) ∈ flat.map Prod.fst →
      (ty, p) ∈ flat.map Prod.fst → False) :
    scoreParsed tF (flat.map (renameEntry ty)) = scoreParsed tF flat := by
  have hrn_ty : ∀ k, ((renameKey ty k).1 = "ref" ↔ k.1 = "ref") ∧
      (renameKey ty k).2 = k.2 := by
    intro k
    unfold renameKey
    split
    · rename_i h
      refine ⟨⟨fun hc => absurd hc (by simp), fun hc => absurd (h.symm.trans hc) hty⟩, rfl⟩
    · exact ⟨Iff.rfl, rfl⟩
  have hinj : ∀ k1, (k1 ∈ ([] : GroupMap).map Prod.fst ∨ k1 ∈ flat.map Prod.fst) →
      ∀ k2, (k2 ∈ ([] : GroupMap).map Prod.fst ∨ k2 ∈ flat.map Prod.fst) →
        renameKey ty k1 = renameKey ty k2 → k1 = k2 := by
    intro k1 hk1 k2 hk2 hc
    simp only [List.map_nil, List.not_mem_nil, false_or] at hk1 hk2
    obtain ⟨a1, b1⟩ := k1
    obtain ⟨a2, b2⟩ := k2
    unfold renameKey at hc
    dsimp only at hc
    by_cases h1 : a1 = ty <;> by_cases h2 : a2 = ty
    · rw [if_pos h1, if_pos h2] at hc
      injection hc with hc1 hc2
      rw [h1, h2, hc2]
    · rw [if_pos h1, if_neg h2] at hc
      exfalso
      apply hfresh b1
      · rw [hc]
        exact hk2
      · rw [← h1]
        exact hk1
    · rw [if_neg h1, if_pos h2] at hc
      exfalso
      apply hfresh b2
      · rw [← hc]
        exact hk1
      · rw [← h2]
        exact hk2
    · rw [if_neg h1, if_neg h2] at hc
      exact hc
  have hmap : buildMap (flat.map (renameEntry ty)) [] =
      mapKeys (renameKey ty) (buildMap flat []) := by
    have := buildMap_mapKeys (renameKey ty) flat [] hinj
    simpa [renameEntry, mapKeys] using this
  unfold scoreParsed
  rw [hmap, statsMaps_mapKeys (renameKey ty) hrn_ty]

/-- C10: a sample whose id parses with any sample type other than `"ref"`
(`"tied"` or otherwise) raises no error; its group is classified as a tied
group and feeds `tied_stats` and `tied_accuracy` exactly as if its type were
`"tied"`: a dataset whose parsed contributions are the same except for that
type renamed to `"tied"` (without colliding with an existing `"tied"` group)
produces the identical overall score. -/
theorem C10_nonref_type_scored_as_tied (tF : ℚ → ℚ) (ty : String)
    (hty : ty ≠ "ref") (ds dsT : List Row) (flat : List Entry)
    (d : List Row) (s : NpVal)
    (hp : parseRows ds = Except.ok flat)
    (hpT : parseRows dsT = Except.ok (flat.map (renameEntry ty)))
    (hfresh : ∀ p, ("tied", p) ∈ flat.map Prod.fst →
      (ty, p) ∈ flat.map Prod.fst → False)
    (h : processSingleModel tF ds = Except.ok (d, s)) :
    processSingleModel tF dsT = Except.ok (dsT.map clearResults, s) := by
  obtain ⟨flat2, s2, hp2, hsc, hpair⟩ := (processSingleModel_ok_iff tF ds (d, s)).mp h
  rw [hp] at hp2
  injection hp2 with hflat
  injection hpair with hd hs
  apply (processSingleModel_ok_iff tF dsT _).mpr
  refine ⟨flat.map (renameEntry ty), s, hpT, ?_, rfl⟩
  rw [scoreParsed_rename tF ty hty flat hfresh, hflat, hs]
  exact hsc

/-- Witness for C10: the type `"foo"` behaves exactly like `"tied"` on a
concrete dataset. -/
theorem C10_nonref_type_scored_as_tied_witness :
    ("foo" : String) ≠ "ref" ∧
    parseRows
      [{ id := "ref:0", num_correct := 1,
         scores := [RawScore.scalar 5, RawScore.scalar 2] },
       { id := "foo:0", num_correct := 2,
         scores := [RawScore.scalar 4, RawScore.scalar 4, RawScore.scalar 1] }] =
      Except.ok
        [(("ref", 0), (true, 5)), (("ref", 0), (false, 2)),
         (("foo", 0), (true, 4)), (("foo", 0), (true, 4)),
         (("foo", 0), (false, 1))] ∧
    parseRows
      [{ id := "ref:0", num_correct := 1,
         scores := [RawScore.scalar 5, RawScore.scalar 2] },
       { id := "tied:0", num_correct := 2,
         scores := [RawScore.scalar 4, RawScore.scalar 4, RawScore.scalar 1] }] =
      Except.ok
        ([(("ref", 0), (true, 5)), (("ref", 0), (false, 2)),
          (("foo", 0), (true, 4)), (("foo", 0), (true, 4)),
          (("foo", 0), (false, 1))].map (renameEntry "foo")) ∧
    processSingleModel tanhZero
      [{ id := "ref:0", num_correct := 1,
         scores := [RawScore.scalar 5, RawScore.scalar 2] },
       { id := "foo:0", num_correct := 2,
         scores := [RawScore.scalar 4, RawScore.scalar 4, RawScore.scalar 1] }] =
      Except.ok
        ([{ id := "ref:0", num_correct := 1,
            scores := [RawScore.scalar 5, RawScore.scalar 2] },
          { id := "foo:0", num_correct := 2,
            scores := [RawScore.scalar 4, RawScore.scalar 4, RawScore.scalar 1] }].map
          clearResults, NpVal.num (101/100)) ∧
    processSingleModel tanhZero
      [{ id := "ref:0", num_correct := 1,
         scores := [RawScore.scalar 5, RawScore.scalar 2] },
       { id := "tied:0", num_correct := 2,
         scores := [RawScore.scalar 4, RawScore.scalar 4, RawScore.scalar 1] }] =
      Except.ok
        ([{ id := "ref:0", num_correct := 1,
            scores := [RawScore.scalar 5, RawScore.scalar 2] },
          { id := "tied:0", num_correct := 2,
            scores := [RawScore.scalar 4, RawScore.scalar 4, RawScore.scalar 1] }].map
          clearResults, NpVal.num (101/100)) :=
  ⟨by decide, by decide, by decide, by decide,
   C10_nonref_type_scored_as_tied tanhZero "foo" (by decide)
     [{ id := "ref:0", num_correct := 1,
        scores := [RawScore.scalar 5, RawScore.scalar 2] },
      { id := "foo:0", num_correct := 2,
        scores := [RawScore.scalar 4, RawScore.scalar 4, RawScore.scalar 1] }]
     [{ id := "ref:0", num_correct := 1,
        scores := [RawScore.scalar 5, RawScore.scalar 2] },
      { id := "tied:0", num_correct := 2,
        scores := [RawScore.scalar 4, RawScore.scalar 4, RawScore.scalar 1] }]
     [(("ref", 0), (true, 5)), (("ref", 0), (false, 2)),
      (("foo", 0), (true, 4)), (("foo", 0), (true, 4)),
      (("foo", 0), (false, 1))]
     ([{ id := "ref:0", num_correct := 1,
         scores := [RawScore.scalar 5, RawScore.scalar 2] },
       { id := "foo:0", num_correct := 2,
         scores := [RawScore.scalar 4, RawScore.scalar 4, RawScore.scalar 1] }].map
       clearResults)
     (NpVal.num (101/100))
     (by decide) (by decide)
     (by intro p hp hq; simp at hp) (by decide)⟩

/-! ### Claim C5: permutation invariance.
First: the semantics of the grouping map as a finite map. -/

/-- All pairs contributed to key `k`, in contribution order. -/
def flatVals (k : String × ℤ) (flat : List Entry) : List (Bool × ℚ) :=
  flat.filterMap fun e => if e.1 = k then some e.2 else none

theorem alookup_isSome_iff {α β : Type} [DecidableEq α]
    (l : List (α × β)) (k : α) :
    (alookup l k).isSome = true ↔ k ∈ l.map Prod.fst := by
  induction l with
  | nil => simp [alookup]
  | cons x rest ih =>
      obtain ⟨a, b⟩ := x
      by_cases h : a = k
      · simp [alookup, h]
      · simp only [alookup, if_neg h, List.map_cons, List.mem_cons, ih]
        constructor
        · intro h'
          exact Or.inr h'
        · intro h'
          rcases h' with h' | h'
          · exact absurd h'.symm h
          · exact h'

theorem alookup_dictAppend (g : GroupMap) (k k' : String × ℤ) (p : Bool × ℚ) :
    alookup (dictAppend g k p) k' =
      if k' = k then some ((alookup g k).getD [] ++ [p]) else alookup g k' := by
  induction g with
  | nil =>
      by_cases h : k' = k
      · simp [dictAppend, alookup, h]
      · have hne : ¬ k = k' := fun hc => h hc.symm
        simp [dictAppend, alookup, h, hne]
  | cons x rest ih =>
      obtain ⟨kx, lx⟩ := x
      by_cases hx : kx = k
      · subst hx
        by_cases h' : k' = kx
        · subst h'
          simp [dictAppend, alookup]
        · have hne : ¬ kx = k' := fun hc => h' hc.symm
          simp [dictAppend, alookup, h', hne]
      · by_cases h' : k' = k
        · subst h'
          have hxk : ¬ kx = k' := hx
          simp only [dictAppend, if_neg hx, alookup, if_neg hxk, ih, if_pos rfl]
        · by_cases hxk : kx = k'
          · simp [dictAppend, alookup, hx, hxk, h']
          · simp [dictAppend, alookup, hx, hxk, h', ih]

theorem buildMap_lookup_getD : ∀ (flat : List Entry) (g : GroupMap)
    (k : String × ℤ),
    (alookup (buildMap flat g) k).getD [] =
      (alookup g k).getD [] ++ flatVals k flat := by
  intro flat
  induction flat with
  | nil => intro g k; simp [buildMap, flatVals]
  | cons e es ih =>
      intro g k
      show (alookup (buildMap es (dictAppend g e.1 e.2)) k).getD [] = _
      rw [ih, alookup_dictAppend]
      by_cases h : k = e.1
      · rw [if_pos h]
        have hfv : flatVals k (e :: es) = e.2 :: flatVals k es := by
          simp [flatVals, List.filterMap_cons, h.symm]
        rw [hfv, h]
        simp
      · rw [if_neg h]
        have hne : ¬ e.1 = k := fun hc => h hc.symm
        have hfv : flatVals k (e :: es) = flatVals k es := by
          simp [flatVals, List.filterMap_cons, hne]
        rw [hfv]

theorem dictAppend_keys (g : GroupMap) (k : String × ℤ) (p : Bool × ℚ) :
    (dictAppend g k p).map Prod.fst =
      if k ∈ g.map Prod.fst then g.map Prod.fst else g.map Prod.fst ++ [k] := by
  induction g with
  | nil => simp [dictAppend]
  | cons x rest ih =>
      obtain ⟨kx, lx⟩ := x
      by_cases hx : kx = k
      · subst hx
        simp [dictAppend]
      · simp only [dictAppend, if_neg hx, List.map_cons, ih, List.mem_cons]
        by_cases hm : k ∈ rest.map Prod.fst
        · rw [if_pos hm, if_pos (Or.inr hm)]
        · rw [if_neg hm, if_neg ?_]
          · simp
          · intro hc
            rcases hc with hc | hc
            · exact hx hc.symm
            · exact hm hc

theorem dictAppend_mem_keys (g : GroupMap) (k k' : String × ℤ) (p : Bool × ℚ) :
    k' ∈ (dictAppend g k p).map Prod.fst ↔ k' ∈ g.map Prod.fst ∨ k' = k := by
  rw [dictAppend_keys]
  by_cases hm : k ∈ g.map Prod.fst
  · rw [if_pos hm]
    constructor
    · exact Or.inl
    · intro h
      rcases h with h | h
      · exact h
      · rw [h]; exact hm
  · rw [if_neg hm]
    simp

theorem buildMap_mem_keys : ∀ (flat : List Entry) (g : GroupMap)
    (k : String × ℤ),
    k ∈ (buildMap flat g).map Prod.fst ↔
      k ∈ g.map Prod.fst ∨ k ∈ flat.map Prod.fst := by
  intro flat
  induction flat with
  | nil => intro g k; simp [buildMap]
  | cons e es ih =>
      intro g k
      show k ∈ (buildMap es (dictAppend g e.1 e.2)).map Prod.fst ↔ _
      rw [ih, dictAppend_mem_keys]
      simp only [List.map_cons, List.mem_cons]
      tauto

theorem buildMap_keys_nodup : ∀ (flat : List Entry) (g : GroupMap),
    (g.map Prod.fst).Nodup → ((buildMap flat g).map Prod.fst).Nodup := by
  intro flat
  induction flat with
  | nil => intro g h; exact h
  | cons e es ih =>
      intro g h
      show ((buildMap es (dictAppend g e.1 e.2)).map Prod.fst).Nodup
      apply ih
      rw [dictAppend_keys]
      by_cases hm : e.1 ∈ g.map Prod.fst
      · rw [if_pos hm]; exact h
      · rw [if_neg hm]
        rw [List.nodup_append]
        refine ⟨h, List.nodup_singleton _, ?_⟩
        intro a ha hb
        rw [List.mem_singleton] at hb
        subst hb
        exact hm ha

/-! Permutation invariance of the per-group statistics. -/

theorem pyMax_perm (a b : List ℚ) (hp : a.Perm b) : pyMax a = pyMax b := by
  cases a with
  | nil =>
      cases b with
      | nil => rfl
      | cons y ys => exact absurd hp.length_eq (by simp)
  | cons x xs =>
      cases b with
      | nil => exact absurd hp.length_eq (by simp)
      | cons y ys =>
          show Except.ok (xs.foldl max x) = Except.ok (ys.foldl max y)
          have h1 : xs.foldl max x ≤ ys.foldl max y :=
            le_foldl_max ys y _ (hp.mem_iff.mp (foldl_max_mem xs x))
          have h2 : ys.foldl max y ≤ xs.foldl max x :=
            le_foldl_max xs x _ (hp.mem_iff.mpr (foldl_max_mem ys y))
          rw [le_antisymm h1 h2]

theorem pyMin_perm (a b : List ℚ) (hp : a.Perm b) : pyMin a = pyMin b := by
  cases a with
  | nil =>
      cases b with
      | nil => rfl
      | cons y ys => exact absurd hp.length_eq (by simp)
  | cons x xs =>
      cases b with
      | nil => exact absurd hp.length_eq (by simp)
      | cons y ys =>
          show Except.ok (xs.foldl min x) = Except.ok (ys.foldl min y)
          have h1 : ys.foldl min y ≤ xs.foldl min x :=
            foldl_min_le ys y _ (hp.mem_iff.mp (foldl_min_mem xs x))
          have h2 : xs.foldl min x ≤ ys.foldl min y :=
            foldl_min_le xs x _ (hp.mem_iff.mpr (foldl_min_mem ys y))
          rw [le_antisymm h2 h1]

/-- `_compute_prompt_stats` only depends on the multiset of pairs. -/
theorem computePromptStats_perm (l l' : List (Bool × ℚ)) (hp : l.Perm l') :
    computePromptStats l = computePromptStats l' := by
  have hc : (correctScores l).Perm (correctScores l') := hp.filterMap _
  have hi : (incorrectScores l).Perm (incorrectScores l') := hp.filterMap _
  unfold computePromptStats
  dsimp only
  rw [pyMax_perm _ _ hc, pyMin_perm _ _ hc, pyMax_perm _ _ hi, hc.length_eq]

/-! Characterisation of the stats loop on valid groups. -/

/-- The statistics of a group, defaulting on the (excluded) error case. -/
def statDOf (gr : List (Bool × ℚ)) : PromptStats :=
  match computePromptStats gr with
  | Except.ok st => st
  | Except.error _ => default

/-- Prompt ids of the `"ref"` groups, in map order. -/
def refPids (g : GroupMap) : List ℤ :=
  g.filterMap fun kv => if kv.1.1 = "ref" then some kv.1.2 else none

/-- Prompt ids of the non-`"ref"` groups, in map order. -/
def tiedPids (g : GroupMap) : List ℤ :=
  g.filterMap fun kv => if kv.1.1 = "ref" then none else some kv.1.2

/-- The `ref_stats` dict contents, when no overwrite happens. -/
def refList (g : GroupMap) : List (ℤ × PromptStats) :=
  g.filterMap fun kv =>
    if kv.1.1 = "ref" then some (kv.1.2, statDOf kv.2) else none

/-- The `tied_stats` dict contents, when no overwrite happens. -/
def tiedList (g : GroupMap) : List (ℤ × PromptStats) :=
  g.filterMap fun kv =>
    if kv.1.1 = "ref" then none else some (kv.1.2, statDOf kv.2)

theorem dictSet_fresh (m : List (ℤ × PromptStats)) (k : ℤ) (v : PromptStats)
    (h : k ∉ m.map Prod.fst) : dictSet m k v = m ++ [(k, v)] := by
  induction m with
  | nil => rfl
  | cons x rest ih =>
      obtain ⟨kx, vx⟩ := x
      simp only [List.map_cons, List.mem_cons] at h
      push_neg at h
      have hne : ¬ kx = k := fun hc => h.1 hc.symm
      simp [dictSet, hne, ih h.2]

theorem refPids_mem (g : GroupMap) (p : ℤ) (h : p ∈ refPids g) :
    ("ref", p) ∈ g.map Prod.fst := by
  induction g with
  | nil => simp [refPids] at h
  | cons kv rest ih =>
      obtain ⟨⟨ty, pid⟩, gr⟩ := kv
      by_cases hty2 : ty = "ref"
      · rw [show refPids (((ty, pid), gr) :: rest) = pid :: refPids rest from by
          simp [refPids, List.filterMap_cons, hty2]] at h
        rcases List.mem_cons.mp h with rfl | h'
        · subst hty2
          simp
        · exact List.mem_cons.mpr (Or.inr (ih h'))
      · rw [show refPids (((ty, pid), gr) :: rest) = refPids rest from by
          simp [refPids, List.filterMap_cons, hty2]] at h
        exact List.mem_cons.mpr (Or.inr (ih h))

theorem tiedPids_mem (g : GroupMap) (p : ℤ) (h : p ∈ tiedPids g) :
    ∃ ty, ¬ ty = "ref" ∧ (ty, p) ∈ g.map Prod.fst := by
  induction g with
  | nil => simp [tiedPids] at h
  | cons kv rest ih =>
      obtain ⟨⟨ty, pid⟩, gr⟩ := kv
      by_cases hty2 : ty = "ref"
      · rw [show tiedPids (((ty, pid), gr) :: rest) = tiedPids rest from by
          simp [tiedPids, List.filterMap_cons, hty2]] at h
        obtain ⟨ty2, hne, hm⟩ := ih h
        exact ⟨ty2, hne, List.mem_cons.mpr (Or.inr hm)⟩
      · rw [show tiedPids (((ty, pid), gr) :: rest) = pid :: tiedPids rest from by
          simp [tiedPids, List.filterMap_cons, hty2]] at h
        rcases List.mem_cons.mp h with rfl | h'
        · exact ⟨ty, hty2, by simp⟩
        · obtain ⟨ty2, hne, hm⟩ := ih h'
          exact ⟨ty2, hne, List.mem_cons.mpr (Or.inr hm)⟩

theorem refPids_nodup (g : GroupMap) (h : (g.map Prod.fst).Nodup) :
    (refPids g).Nodup := by
  induction g with
  | nil => simp [refPids]
  | cons kv rest ih =>
      obtain ⟨⟨ty, pid⟩, gr⟩ := kv
      simp only [List.map_cons, List.nodup_cons] at h
      by_cases hty2 : ty = "ref"
      · rw [show refPids (((ty, pid), gr) :: rest) = pid :: refPids rest from by
          simp [refPids, List.filterMap_cons, hty2]]
        rw [List.nodup_cons]
        refine ⟨?_, ih h.2⟩
        intro hc
        apply h.1
        subst hty2
        exact refPids_mem rest pid hc
      · rw [show refPids (((ty, pid), gr) :: rest) = refPids rest from by
          simp [refPids, List.filterMap_cons, hty2]]
        exact ih h.2

theorem tiedPids_nodup (g : GroupMap) (h : (g.map Prod.fst).Nodup)
    (hK : ∀ k ∈ g.map Prod.fst, k.1 = "ref" ∨ k.1 = "tied") :
    (tiedPids g).Nodup := by
  induction g with
  | nil => simp [tiedPids]
  | cons kv rest ih =>
      obtain ⟨⟨ty, pid⟩, gr⟩ := kv
      simp only [List.map_cons, List.nodup_cons] at h
      have hK' : ∀ k ∈ rest.map Prod.fst, k.1 = "ref" ∨ k.1 = "tied" := by
        intro k hk
        exact hK k (List.mem_cons.mpr (Or.inr hk))
      by_cases hty2 : ty = "ref"
      · rw [show tiedPids (((ty, pid), gr) :: rest) = tiedPids rest from by
          simp [tiedPids, List.filterMap_cons, hty2]]
        exact ih h.2 hK'
      · rw [show tiedPids (((ty, pid), gr) :: rest) = pid :: tiedPids rest from by
          simp [tiedPids, List.filterMap_cons, hty2]]
        rw [List.nodup_cons]
        refine ⟨?_, ih h.2 hK'⟩
        intro hc
        obtain ⟨ty2, hne2, hm2⟩ := tiedPids_mem rest pid hc
        have hty : ty = "tied" := by
          rcases hK (ty, pid) (by simp) with h' | h'
          · exact absurd h' hty2
          · exact h'
        have hty2' : ty2 = "tied" := by
          rcases hK' (ty2, pid) hm2 with h' | h'
          · exact absurd h' hne2
          · exact h'
        apply h.1
        rw [hty, ← hty2']
        exact hm2

theorem statsFold_ok_valid : ∀ (g : GroupMap) acc rt,
    statsFold g acc = Except.ok rt →
    ∀ kv ∈ g, (computePromptStats kv.2).isOk = true := by
  intro g
  induction g with
  | nil => intro acc rt h kv hm; cases hm
  | cons kv0 rest ih =>
      intro acc rt h kv hm
      obtain ⟨k0, g0⟩ := kv0
      simp only [statsFold] at h
      cases hst : computePromptStats g0 with
      | error e => rw [hst, error_bind] at h; cases h
      | ok st =>
          rw [hst, ok_bind] at h
          rcases List.mem_cons.mp hm with rfl | hm'
          · rw [hst]; rfl
          · by_cases hk : k0.1 = "ref"
            · rw [if_pos hk] at h
              exact ih _ _ h kv hm'
            · rw [if_neg hk] at h
              exact ih _ _ h kv hm'

theorem statsFold_ok_char : ∀ (g : GroupMap),
    (∀ kv ∈ g, (computePromptStats kv.2).isOk = true) →
    (refPids g).Nodup → (tiedPids g).Nodup →
    ∀ acc : List (ℤ × PromptStats) × List (ℤ × PromptStats),
      (∀ p ∈ refPids g, p ∉ acc.1.map Prod.fst) →
      (∀ p ∈ tiedPids g, p ∉ acc.2.map Prod.fst) →
      statsFold g acc = Except.ok (acc.1 ++ refList g, acc.2 ++ tiedList g) := by
  intro g
  induction g with
  | nil =>
      intro _ _ _ acc _ _
      simp [statsFold, refList, tiedList]
  | cons kv rest ih =>
      intro hval hnr hnt acc hfr hft
      obtain ⟨⟨ty, pid⟩, gr⟩ := kv
      have hok := hval _ (List.mem_cons_self _ _)
      cases hst : computePromptStats gr with
      | error e => rw [hst] at hok; cases hok
      | ok st =>
          have hstD : statDOf gr = st := by unfold statDOf; rw [hst]
          have hval' : ∀ kv ∈ rest, (computePromptStats kv.2).isOk = true :=
            fun kv hk => hval kv (List.mem_cons.mpr (Or.inr hk))
          simp only [statsFold]
          rw [hst, ok_bind]
          by_cases hty2 : ty = "ref"
          · have hrp : refPids (((ty, pid), gr) :: rest) = pid :: refPids rest := by
              simp [refPids, List.filterMap_cons, hty2]
            have hrl : refList (((ty, pid), gr) :: rest) =
                (pid, st) :: refList rest := by
              simp [refList, List.filterMap_cons, hty2, hstD]
            have htp : tiedPids (((ty, pid), gr) :: rest) = tiedPids rest := by
              simp [tiedPids, List.filterMap_cons, hty2]
            have htl : tiedList (((ty, pid), gr) :: rest) = tiedList rest := by
              simp [tiedList, List.filterMap_cons, hty2]
            rw [hrp] at hnr hfr
            rw [htp] at hnt hft
            rw [if_pos hty2]
            rw [dictSet_fresh acc.1 pid st (hfr pid (List.mem_cons_self _ _))]
            rw [ih hval' (List.nodup_cons.mp hnr).2 hnt
              (acc.1 ++ [(pid, st)], acc.2) ?_ ?_]
            · rw [hrl, htl]
              simp
            · intro p hp
              simp only [List.map_append, List.mem_append]
              intro hc
              rcases hc with hc | hc
              · exact hfr p (List.mem_cons.mpr (Or.inr hp)) hc
              · simp at hc
                subst hc
                exact (List.nodup_cons.mp hnr).1 hp
            · intro p hp
              exact hft p hp
          · have hrp : refPids (((ty, pid), gr) :: rest) = refPids rest := by
              simp [refPids, List.filterMap_cons, hty2]
            have hrl : refList (((ty, pid), gr) :: rest) = refList rest := by
              simp [refList, List.filterMap_cons, hty2]
            have htp : tiedPids (((ty, pid), gr) :: rest) =
                pid :: tiedPids rest := by
              simp [tiedPids, List.filterMap_cons, hty2]
            have htl : tiedList (((ty, pid), gr) :: rest) =
                (pid, st) :: tiedList rest := by
              simp [tiedList, List.filterMap_cons, hty2, hstD]
            rw [hrp] at hnr hfr
            rw [htp] at hnt hft
            rw [if_neg hty2]
            rw [dictSet_fresh acc.2 pid st (hft pid (List.mem_cons_self _ _))]
            rw [ih hval' hnr (List.nodup_cons.mp hnt).2
              (acc.1, acc.2 ++ [(pid, st)]) ?_ ?_]
            · rw [hrl, htl]
              simp
            · intro p hp
              exact hfr p hp
            · intro p hp
              simp only [List.map_append, List.mem_append]
              intro hc
              rcases hc with hc | hc
              · exact hft p (List.mem_cons.mpr (Or.inr hp)) hc
              · simp at hc
                subst hc
                exact (List.nodup_cons.mp hnt).1 hp

/-- A successful stats loop on a nodup-keyed, type-sane map produces exactly
the two filtered association lists. -/
theorem statsMaps_ok_eq (g : GroupMap)
    (refS tiedS : List (ℤ × PromptStats))
    (h : statsMaps g = Except.ok (refS, tiedS))
    (hnr : (refPids g).Nodup) (hnt : (tiedPids g).Nodup) :
    refS = refList g ∧ tiedS = tiedList g := by
  have hval := statsFold_ok_valid g ([], []) _ h
  have hchar := statsFold_ok_char g hval hnr hnt ([], [])
    (by intro p _; simp) (by intro p _; simp)
  unfold statsMaps at h
  rw [h] at hchar
  injection hchar with hchar
  injection hchar with h1 h2
  simp at h1 h2
  exact ⟨h1, h2⟩

/-! Lookups in the two stats dicts. -/

theorem alookup_refList (g : GroupMap) (p : ℤ) :
    alookup (refList g) p = (alookup g ("ref", p)).map statDOf := by
  induction g with
  | nil => rfl
  | cons kv rest ih =>
      obtain ⟨⟨ty, pid⟩, gr⟩ := kv
      by_cases hty2 : ty = "ref"
      · subst hty2
        rw [show refList ((("ref", pid), gr) :: rest) =
            (pid, statDOf gr) :: refList rest from by
          simp [refList, List.filterMap_cons]]
        by_cases hp : pid = p
        · subst hp
          rw [show alookup ((pid, statDOf gr) :: refList rest) pid =
              some (statDOf gr) from by simp [alookup]]
          rw [show alookup ((("ref", pid), gr) :: rest) ("ref", pid) =
              some gr from by simp [alookup]]
          rfl
        · rw [show alookup ((pid, statDOf gr) :: refList rest) p =
              alookup (refList rest) p from by simp [alookup, hp]]
          have hne : ¬ ((("ref", pid) : String × ℤ) = ("ref", p)) := by simp [hp]
          rw [show alookup ((("ref", pid), gr) :: rest) ("ref", p) =
              alookup rest ("ref", p) from by simp [alookup, hne]]
          exact ih
      · rw [show refList (((ty, pid), gr) :: rest) = refList rest from by
          simp [refList, List.filterMap_cons, hty2]]
        have hne : ¬ (((ty, pid) : String × ℤ) = ("ref", p)) := by simp [hty2]
        rw [show alookup (((ty, pid), gr) :: rest) ("ref", p) =
            alookup rest ("ref", p) from by simp [alookup, hne]]
        exact ih

theorem alookup_tiedList (g : GroupMap)
    (hK : ∀ k ∈ g.map Prod.fst, k.1 = "ref" ∨ k.1 = "tied") (p : ℤ) :
    alookup (tiedList g) p = (alookup g ("tied", p)).map statDOf := by
  induction g with
  | nil => rfl
  | cons kv rest ih =>
      obtain ⟨⟨ty, pid⟩, gr⟩ := kv
      have hK' : ∀ k ∈ rest.map Prod.fst, k.1 = "ref" ∨ k.1 = "tied" :=
        fun k hk => hK k (List.mem_cons.mpr (Or.inr hk))
      by_cases hty2 : ty = "ref"
      · subst hty2
        rw [show tiedList ((("ref", pid), gr) :: rest) = tiedList rest from by
          simp [tiedList, List.filterMap_cons]]
        have hne : ¬ ((("ref", pid) : String × ℤ) = ("tied", p)) := by simp
        rw [show alookup ((("ref", pid), gr) :: rest) ("tied", p) =
            alookup rest ("tied", p) from by simp [alookup, hne]]
        exact ih hK'
      · have hty : ty = "tied" := by
          rcases hK (ty, pid) (by simp) with h' | h'
          · exact absurd h' hty2
          · exact h'
        subst hty
        rw [show tiedList ((("tied", pid), gr) :: rest) =
            (pid, statDOf gr) :: tiedList rest from by
          simp [tiedList, List.filterMap_cons]]
        by_cases hp : pid = p
        · subst hp
          rw [show alookup ((pid, statDOf gr) :: tiedList rest) pid =
              some (statDOf gr) from by simp [alookup]]
          rw [show alookup ((("tied", pid), gr) :: rest) ("tied", pid) =
              some gr from by simp [alookup]]
          rfl
        · rw [show alookup ((pid, statDOf gr) :: tiedList rest) p =
              alookup (tiedList rest) p from by simp [alookup, hp]]
          have hne : ¬ ((("tied", pid) : String × ℤ) = ("tied", p)) := by simp [hp]
          rw [show alookup ((("tied", pid), gr) :: rest) ("tied", p) =
              alookup rest ("tied", p) from by simp [alookup, hne]]
          exact ih hK'

theorem refList_fsts (g : GroupMap) : (refList g).map Prod.fst = refPids g := by
  induction g with
  | nil => rfl
  | cons kv rest ih =>
      obtain ⟨⟨ty, pid⟩, gr⟩ := kv
      by_cases hty2 : ty = "ref"
      · rw [show refList (((ty, pid), gr) :: rest) =
            (pid, statDOf gr) :: refList rest from by
          simp [refList, List.filterMap_cons, hty2]]
        rw [show refPids (((ty, pid), gr) :: rest) = pid :: refPids rest from by
          simp [refPids, List.filterMap_cons, hty2]]
        simp [ih]
      · rw [show refList (((ty, pid), gr) :: rest) = refList rest from by
          simp [refList, List.filterMap_cons, hty2]]
        rw [show refPids (((ty, pid), gr) :: rest) = refPids rest from by
          simp [refPids, List.filterMap_cons, hty2]]
        exact ih

theorem tiedList_fsts (g : GroupMap) :
    (tiedList g).map Prod.fst = tiedPids g := by
  induction g with
  | nil => rfl
  | cons kv rest ih =>
      obtain ⟨⟨ty, pid⟩, gr⟩ := kv
      by_cases hty2 : ty = "ref"
      · rw [show tiedList (((ty, pid), gr) :: rest) = tiedList rest from by
          simp [tiedList, List.filterMap_cons, hty2]]
        rw [show tiedPids (((ty, pid), gr) :: rest) = tiedPids rest from by
          simp [tiedPids, List.filterMap_cons, hty2]]
        exact ih
      · rw [show tiedList (((ty, pid), gr) :: rest) =
            (pid, statDOf gr) :: tiedList rest from by
          simp [tiedList, List.filterMap_cons, hty2]]
        rw [show tiedPids (((ty, pid), gr) :: rest) = pid :: tiedPids rest from by
          simp [tiedPids, List.filterMap_cons, hty2]]
        simp [ih]

theorem alookup_eq_some_iff {α β : Type} [DecidableEq α] (l : List (α × β))
    (hn : (l.map Prod.fst).Nodup) (k : α) (v : β) :
    alookup l k = some v ↔ (k, v) ∈ l := by
  constructor
  · exact alookup_mem l k v
  · intro hm
    induction l with
    | nil => cases hm
    | cons x rest ih =>
        obtain ⟨a, b⟩ := x
        simp only [List.map_cons, List.nodup_cons] at hn
        rcases List.mem_cons.mp hm with heq | hm'
        · injection heq with h1 h2
          subst h1
          subst h2
          simp [alookup]
        · have hak : ¬ a = k := by
            intro hc
            subst hc
            exact hn.1 (List.mem_map.mpr ⟨(a, v), hm', rfl⟩)
          simp only [alookup, if_neg hak]
          exact ih hn.2 hm'

/-- Two association lists with no duplicate keys and the same lookup
function are permutations of each other. -/
theorem assoc_perm_of_lookup_eq {α β : Type} [DecidableEq α] [DecidableEq β]
    (l l' : List (α × β))
    (hn : (l.map Prod.fst).Nodup) (hn' : (l'.map Prod.fst).Nodup)
    (hl : ∀ k, alookup l k = alookup l' k) : l.Perm l' := by
  apply List.perm_of_nodup_nodup_toFinset_eq (hn.of_map _) (hn'.of_map _)
  ext kv
  obtain ⟨k, v⟩ := kv
  simp only [List.mem_toFinset]
  rw [← alookup_eq_some_iff l hn k v, ← alookup_eq_some_iff l' hn' k v, hl k]

/-! `seqOpts` over a mapped list. -/

theorem seqOpts_map_inv (f : ℤ → Option ℚ) : ∀ (l : List ℤ) (r : List ℚ),
    seqOpts (l.map f) = some r →
    (∀ p ∈ l, (f p).isSome = true) ∧ r = l.map fun p => (f p).getD 0 := by
  intro l
  induction l with
  | nil =>
      intro r h
      injection h with h
      subst h
      exact ⟨fun p hp => absurd hp (List.not_mem_nil p), rfl⟩
  | cons p t ih =>
      intro r h
      rw [List.map_cons] at h
      cases hfp : f p with
      | none =>
          rw [hfp] at h
          rw [show seqOpts (none :: t.map f) = (none : Option (List ℚ)) from rfl] at h
          cases h
      | some x =>
          rw [hfp] at h
          rw [show seqOpts (some x :: t.map f) =
              (seqOpts (t.map f)).map (fun u => x :: u) from rfl] at h
          cases hs : seqOpts (t.map f) with
          | none => rw [hs] at h; cases h
          | some u =>
              rw [hs] at h
              injection h with h
              subst h
              obtain ⟨h1, h2⟩ := ih u hs
              constructor
              · intro q hq
                rcases List.mem_cons.mp hq with rfl | hq'
                · rw [hfp]; rfl
                · exact h1 q hq'
              · rw [List.map_cons, ← h2, hfp]
                rfl

theorem seqOpts_map_of_isSome (f : ℤ → Option ℚ) : ∀ (l : List ℤ),
    (∀ p ∈ l, (f p).isSome = true) →
    seqOpts (l.map f) = some (l.map fun p => (f p).getD 0) := by
  intro l
  induction l with
  | nil => intro _; rfl
  | cons p t ih =>
      intro h
      rw [List.map_cons]
      cases hfp : f p with
      | none =>
          have := h p (List.mem_cons_self _ _)
          rw [hfp] at this
          cases this
      | some x =>
          rw [show seqOpts (some x :: t.map f) =
              (seqOpts (t.map f)).map (fun u => x :: u) from rfl]
          rw [ih fun q hq => h q (List.mem_cons.mpr (Or.inr hq))]
          rw [List.map_cons, hfp]
          rfl

/-! Permutation invariance of the numpy means in use. -/

theorem npMean_map_num_perm {α : Type} (F : α → ℚ) (l l' : List α)
    (hp : l.Perm l') :
    npMean (l.map fun x => NpVal.num (F x)) =
      npMean (l'.map fun x => NpVal.num (F x)) := by
  by_cases h : l = []
  · subst h
    have h' : l' = [] := hp.symm.eq_nil
    subst h'
    rfl
  · have h' : l' ≠ [] := by
      intro hc
      subst hc
      exact h hp.eq_nil
    rw [npMean_map_num F l h, npMean_map_num F l' h', (hp.map F).sum_eq,
      hp.length_eq]

theorem boolMean_map_perm {α : Type} (F : α → Bool) (l l' : List α)
    (hp : l.Perm l') : boolMean (l.map F) = boolMean (l'.map F) := by
  unfold boolMean
  rw [List.map_map, List.map_map]
  exact npMean_map_num_perm (fun x => if F x then 1 else 0) l l' hp

theorem accOf_perm (m m' : List (ℤ × PromptStats)) (hp : m.Perm m') :
    accOf m = accOf m' := by
  unfold accOf
  by_cases h : m = []
  · subst h
    rw [hp.symm.eq_nil]
  · have h' : m' ≠ [] := by
      intro hc
      subst hc
      exact h hp.eq_nil
    rw [if_neg (by simpa using h), if_neg (by simpa using h')]
    exact boolMean_map_perm (fun e => e.2.accurate) m m' hp

theorem zipWith_map_same {α β γ δ : Type} (f : β → γ → δ) (g : α → β)
    (h : α → γ) : ∀ l : List α,
    List.zipWith f (l.map g) (l.map h) = l.map fun x => f (g x) (h x) := by
  intro l
  induction l with
  | nil => rfl
  | cons x t ih => simp [ih]

/-- The finite value of a numpy number (junk on non-finite values). -/
def numVal : NpVal → ℚ
  | NpVal.num q => q
  | NpVal.pinf => 0
  | NpVal.ninf => 0
  | NpVal.nan => 0

/-- A per-prompt margin score is always a finite number (`nan_to_num` output). -/
theorem marginScoreVal_eq_num (tF : ℚ → ℚ) (mn d : ℚ) :
    marginScoreVal tF mn d = NpVal.num (numVal (marginScoreVal tF mn d)) := by
  unfold marginScoreVal
  generalize tanhNp tF (NpVal.sub (NpVal.div (NpVal.num mn) (NpVal.num d)) (NpVal.num 1)) = x
  cases x <;> rfl

/-- The whole weighted aggregation depends only on the stats dicts as finite
maps and on the common-prompt list as a multiset. -/
theorem overallVal_perm (tF : ℚ → ℚ)
    (refS refS' tiedS tiedS' : List (ℤ × PromptStats))
    (hpr : refS.Perm refS') (hpt : tiedS.Perm tiedS')
    (hlr : ∀ p, alookup refS p = alookup refS' p)
    (hlt : ∀ p, alookup tiedS p = alookup tiedS' p)
    (cps cps' : List ℤ) (hpc : cps.Perm cps') (dg : ℤ → ℚ) :
    overallVal tF refS tiedS cps (cps.map dg) =
      overallVal tF refS' tiedS' cps' (cps'.map dg) := by
  have hDr : ∀ p, alookupD refS p = alookupD refS' p := fun p => by
    unfold alookupD; rw [hlr p]
  have hDt : ∀ p, alookupD tiedS p = alookupD tiedS' p := fun p => by
    unfold alookupD; rw [hlt p]
  have hcp : cpVal tiedS cps (cps.map dg) = cpVal tiedS' cps' (cps'.map dg) := by
    unfold cpVal cimTiedArr
    rw [zipWith_map_same, zipWith_map_same]
    rw [List.map_congr_left (fun p _ => by rw [hDt p] :
      ∀ p ∈ cps', decide ((alookupD tiedS' p).correct_incorrect_margin > dg p) =
        decide ((alookupD tiedS p).correct_incorrect_margin > dg p))]
    exact boolMean_map_perm _ cps cps' hpc
  have hcph : cphVal refS tiedS cps (cps.map dg) =
      cphVal refS' tiedS' cps' (cps'.map dg) := by
    unfold cphVal minArr cimRefArr cimTiedArr
    rw [zipWith_map_same, zipWith_map_same, zipWith_map_same, zipWith_map_same]
    rw [List.map_congr_left (fun p _ => by rw [hDt p, hDr p] :
      ∀ p ∈ cps',
        decide (min (alookupD refS' p).correct_incorrect_margin
            (alookupD tiedS' p).correct_incorrect_margin > dg p) =
        decide (min (alookupD refS p).correct_incorrect_margin
            (alookupD tiedS p).correct_incorrect_margin > dg p))]
    exact boolMean_map_perm _ cps cps' hpc
  have hcms : cmsVal tF refS tiedS cps (cps.map dg) =
      cmsVal tF refS' tiedS' cps' (cps'.map dg) := by
    unfold cmsVal minArr cimRefArr cimTiedArr
    rw [zipWith_map_same, zipWith_map_same, zipWith_map_same, zipWith_map_same]
    rw [List.map_congr_left (fun p _ => by rw [hDt p, hDr p] :
      ∀ p ∈ cps',
        marginScoreVal tF (min (alookupD refS' p).correct_incorrect_margin
            (alookupD tiedS' p).correct_incorrect_margin) (dg p) =
        marginScoreVal tF (min (alookupD refS p).correct_incorrect_margin
            (alookupD tiedS p).correct_incorrect_margin) (dg p))]
    rw [List.map_congr_left (fun p _ => marginScoreVal_eq_num tF _ _ :
      ∀ p ∈ cps,
        marginScoreVal tF (min (alookupD refS p).correct_incorrect_margin
            (alookupD tiedS p).correct_incorrect_margin) (dg p) =
        NpVal.num (numVal (marginScoreVal tF
          (min (alookupD refS p).correct_incorrect_margin
            (alookupD tiedS p).correct_incorrect_margin) (dg p))))]
    rw [List.map_congr_left (fun p _ => marginScoreVal_eq_num tF _ _ :
      ∀ p ∈ cps',
        marginScoreVal tF (min (alookupD refS p).correct_incorrect_margin
            (alookupD tiedS p).correct_incorrect_margin) (dg p) =
        NpVal.num (numVal (marginScoreVal tF
          (min (alookupD refS p).correct_incorrect_margin
            (alookupD tiedS p).correct_incorrect_margin) (dg p))))]
    exact npMean_map_num_perm _ cps cps' hpc
  unfold overallVal
  rw [accOf_perm tiedS tiedS' hpt, accOf_perm refS refS' hpr, hcp, hcph, hcms]

/-- Inversion of a successful aggregation. -/
theorem scoreParsed_ok_inv (tF : ℚ → ℚ) (flat : List Entry) (s : NpVal)
    (h : scoreParsed tF flat = Except.ok s) :
    ∃ refS tiedS dcms,
      statsMaps (buildMap flat []) = Except.ok (refS, tiedS) ∧
      seqOpts (dcmArr tiedS (commonsOf refS tiedS)) = some dcms ∧
      s = overallVal tF refS tiedS (commonsOf refS tiedS) dcms := by
  unfold scoreParsed at h
  cases hs : statsMaps (buildMap flat []) with
  | error e => rw [hs, error_bind] at h; cases h
  | ok rt =>
      obtain ⟨refS, tiedS⟩ := rt
      rw [hs, ok_bind] at h
      dsimp only at h
      cases hseq : seqOpts (dcmArr tiedS (commonsOf refS tiedS)) with
      | none => rw [hseq] at h; cases h
      | some dcms =>
          rw [hseq] at h
          injection h with h
          exact ⟨refS, tiedS, dcms, rfl, hseq, h.symm⟩

/-- The group stats found at any key are invariant under permutation of the
flattened contributions. -/
theorem alookup_buildMap_statD (flat flatP : List Entry) (hp : flat.Perm flatP)
    (k : String × ℤ) :
    Option.map statDOf (alookup (buildMap flat []) k) =
      Option.map statDOf (alookup (buildMap flatP []) k) := by
  have hmem : k ∈ (buildMap flat []).map Prod.fst ↔
      k ∈ (buildMap flatP []).map Prod.fst := by
    rw [buildMap_mem_keys, buildMap_mem_keys]
    simp only [List.map_nil, List.not_mem_nil, false_or]
    exact (hp.map Prod.fst).mem_iff
  cases h1 : alookup (buildMap flat []) k with
  | none =>
      cases h2 : alookup (buildMap flatP []) k with
      | none => rfl
      | some g2 =>
          exfalso
          have hm2 : k ∈ (buildMap flatP []).map Prod.fst :=
            (alookup_isSome_iff _ _).mp (by rw [h2]; rfl)
          have hm1 := (alookup_isSome_iff _ k).mpr (hmem.mpr hm2)
          rw [h1] at hm1
          cases hm1
  | some g1 =>
      cases h2 : alookup (buildMap flatP []) k with
      | none =>
          exfalso
          have hm1 : k ∈ (buildMap flat []).map Prod.fst :=
            (alookup_isSome_iff _ _).mp (by rw [h1]; rfl)
          have hm2 := (alookup_isSome_iff _ k).mpr (hmem.mp hm1)
          rw [h2] at hm2
          cases hm2
      | some g2 =>
          have e1 : g1 = flatVals k flat := by
            have he := buildMap_lookup_getD flat [] k
            rw [h1] at he
            simpa [alookup] using he
          have e2 : g2 = flatVals k flatP := by
            have he := buildMap_lookup_getD flatP [] k
            rw [h2] at he
            simpa [alookup] using he
          have hgp : g1.Perm g2 := by
            rw [e1, e2]
            exact hp.filterMap _
          show some (statDOf g1) = some (statDOf g2)
          rw [show statDOf g1 = statDOf g2 from by
            unfold statDOf; rw [computePromptStats_perm g1 g2 hgp]]

/-- A successful aggregation returns the same score on any permutation of
the flattened contributions (types restricted to the `ref`/`tied` data
model, which rules out two distinct non-`"ref"` type strings overwriting
each other in `tied_stats`). -/
theorem scoreParsed_perm (tF : ℚ → ℚ) (flat flatP : List Entry)
    (hp : flat.Perm flatP)
    (hK : ∀ k ∈ flat.map Prod.fst, k.1 = "ref" ∨ k.1 = "tied")
    (s : NpVal) (h : scoreParsed tF flat = Except.ok s) :
    scoreParsed tF flatP = Except.ok s := by
  obtain ⟨refS, tiedS, dcms, hs, hseq, hsval⟩ := scoreParsed_ok_inv tF flat s h
  have hGK : ∀ k ∈ (buildMap flat []).map Prod.fst,
      k.1 = "ref" ∨ k.1 = "tied" := by
    intro k hk
    rw [buildMap_mem_keys] at hk
    simp only [List.map_nil, List.not_mem_nil, false_or] at hk
    exact hK k hk
  have hKP : ∀ k ∈ flatP.map Prod.fst, k.1 = "ref" ∨ k.1 = "tied" := by
    intro k hk
    exact hK k ((hp.map Prod.fst).mem_iff.mpr hk)
  have hGPK : ∀ k ∈ (buildMap flatP []).map Prod.fst,
      k.1 = "ref" ∨ k.1 = "tied" := by
    intro k hk
    rw [buildMap_mem_keys] at hk
    simp only [List.map_nil, List.not_mem_nil, false_or] at hk
    exact hKP k hk
  have hGn : ((buildMap flat []).map Prod.fst).Nodup :=
    buildMap_keys_nodup flat [] (by simp)
  have hGPn : ((buildMap flatP []).map Prod.fst).Nodup :=
    buildMap_keys_nodup flatP [] (by simp)
  obtain ⟨hr1, ht1⟩ := statsMaps_ok_eq _ refS tiedS hs
    (refPids_nodup _ hGn) (tiedPids_nodup _ hGn hGK)
  subst hr1
  subst ht1
  have hval' : ∀ kv ∈ buildMap flatP [],
      (computePromptStats kv.2).isOk = true := by
    intro kv hkv
    obtain ⟨k, gr⟩ := kv
    have hl2 : alookup (buildMap flatP []) k = some gr :=
      (alookup_eq_some_iff _ hGPn k gr).mpr hkv
    have e2 : gr = flatVals k flatP := by
      have he := buildMap_lookup_getD flatP [] k
      rw [hl2] at he
      simpa [alookup] using he
    have hm2 : k ∈ (buildMap flatP []).map Prod.fst :=
      (alookup_isSome_iff _ _).mp (by rw [hl2]; rfl)
    have hm1 : k ∈ (buildMap flat []).map Prod.fst := by
      rw [buildMap_mem_keys] at hm2 ⊢
      simp only [List.map_nil, List.not_mem_nil, false_or] at hm2 ⊢
      exact (hp.map Prod.fst).mem_iff.mpr hm2
    have hl1s := (alookup_isSome_iff (buildMap flat []) k).mpr hm1
    obtain ⟨g1, hl1⟩ := Option.isSome_iff_exists.mp hl1s
    have e1 : g1 = flatVals k flat := by
      have he := buildMap_lookup_getD flat [] k
      rw [hl1] at he
      simpa [alookup] using he
    have hgp : g1.Perm gr := by
      rw [e1, e2]
      exact hp.filterMap _
    have hmem1 : (k, g1) ∈ buildMap flat [] := alookup_mem _ _ _ hl1
    have hv1 := statsFold_ok_valid _ _ _ hs (k, g1) hmem1
    rw [computePromptStats_perm g1 gr hgp] at hv1
    exact hv1
  have hs' : statsMaps (buildMap flatP []) =
      Except.ok (refList (buildMap flatP []), tiedList (buildMap flatP [])) := by
    have hchar := statsFold_ok_char _ hval' (refPids_nodup _ hGPn)
      (tiedPids_nodup _ hGPn hGPK) ([], [])
      (by intro p _; simp) (by intro p _; simp)
    simpa [statsMaps] using hchar
  have hlr : ∀ p, alookup (refList (buildMap flat [])) p =
      alookup (refList (buildMap flatP [])) p := by
    intro p
    rw [alookup_refList, alookup_refList]
    exact alookup_buildMap_statD flat flatP hp _
  have hlt : ∀ p, alookup (tiedList (buildMap flat [])) p =
      alookup (tiedList (buildMap flatP [])) p := by
    intro p
    rw [alookup_tiedList _ hGK, alookup_tiedList _ hGPK]
    exact alookup_buildMap_statD flat flatP hp _
  have hprm : (refList (buildMap flat [])).Perm (refList (buildMap flatP [])) :=
    assoc_perm_of_lookup_eq _ _
      (by rw [refList_fsts]; exact refPids_nodup _ hGn)
      (by rw [refList_fsts]; exact refPids_nodup _ hGPn) hlr
  have hptm : (tiedList (buildMap flat [])).Perm (tiedList (buildMap flatP [])) :=
    assoc_perm_of_lookup_eq _ _
      (by rw [tiedList_fsts]; exact tiedPids_nodup _ hGn hGK)
      (by rw [tiedList_fsts]; exact tiedPids_nodup _ hGPn hGPK) hlt
  have hpc : (commonsOf (refList (buildMap flat []))
      (tiedList (buildMap flat []))).Perm
      (commonsOf (refList (buildMap flatP [])) (tiedList (buildMap flatP []))) := by
    unfold commonsOf
    have hpred : ((refList (buildMap flatP [])).map Prod.fst).filter
        (fun p => (alookup (tiedList (buildMap flatP [])) p).isSome) =
        ((refList (buildMap flatP [])).map Prod.fst).filter
        (fun p => (alookup (tiedList (buildMap flat [])) p).isSome) :=
      List.filter_congr fun p _ => by rw [hlt p]
    rw [hpred]
    exact (hprm.map Prod.fst).filter _
  obtain ⟨hsome, hdcms⟩ := seqOpts_map_inv
    (fun p => (alookupD (tiedList (buildMap flat [])) p).different_correct_margin)
    (commonsOf (refList (buildMap flat [])) (tiedList (buildMap flat []))) dcms hseq
  have hsomeP : ∀ p ∈ commonsOf (refList (buildMap flatP []))
      (tiedList (buildMap flatP [])),
      ((fun p => (alookupD (tiedList (buildMap flatP []))
        p).different_correct_margin) p).isSome = true := by
    intro p hpmem
    have hDeq : alookupD (tiedList (buildMap flatP [])) p =
        alookupD (tiedList (buildMap flat [])) p := by
      unfold alookupD
      rw [hlt p]
    dsimp only
    rw [hDeq]
    exact hsome p (hpc.mem_iff.mpr hpmem)
  have hseqP := seqOpts_map_of_isSome
    (fun p => (alookupD (tiedList (buildMap flatP [])) p).different_correct_margin)
    (commonsOf (refList (buildMap flatP [])) (tiedList (buildMap flatP [])))
    hsomeP
  unfold scoreParsed
  rw [hs', ok_bind]
  dsimp only
  rw [show dcmArr (tiedList (buildMap flatP []))
      (commonsOf (refList (buildMap flatP [])) (tiedList (buildMap flatP []))) =
      (commonsOf (refList (buildMap flatP [])) (tiedList (buildMap flatP []))).map
        (fun p => (alookupD (tiedList (buildMap flatP []))
          p).different_correct_margin) from rfl]
  rw [hseqP]
  rw [hsval, hdcms]
  have hgg : (commonsOf (refList (buildMap flatP []))
      (tiedList (buildMap flatP []))).map
      (fun p => ((fun p => (alookupD (tiedList (buildMap flatP []))
        p).different_correct_margin) p).getD 0) =
      (commonsOf (refList (buildMap flatP [])) (tiedList (buildMap flatP []))).map
      (fun p => ((alookupD (tiedList (buildMap flat []))
        p).different_correct_margin).getD 0) := by
    apply List.map_congr_left
    intro p _
    dsimp only
    rw [show alookupD (tiedList (buildMap flatP [])) p =
        alookupD (tiedList (buildMap flat [])) p from by
      unfold alookupD; rw [hlt p]]
  rw [hgg]
  exact congrArg Except.ok
    ((overallVal_perm tF _ _ _ _ hprm hptm hlr hlt _ _ hpc
      (fun p => ((alookupD (tiedList (buildMap flat []))
        p).different_correct_margin).getD 0)).symm)

/-! Permutation of the sample loop. -/

theorem parseRows_cons_ok (r : Row) (rs : List Row) (flat : List Entry)
    (h : parseRows (r :: rs) = Except.ok flat) :
    ∃ l rest, contrib r = Except.ok l ∧ parseRows rs = Except.ok rest ∧
      flat = l ++ rest := by
  simp only [parseRows] at h
  cases hc : contrib r with
  | error e => rw [hc, error_bind] at h; cases h
  | ok l =>
      rw [hc, ok_bind] at h
      cases hr : parseRows rs with
      | error e => rw [hr, error_bind] at h; cases h
      | ok rest =>
          rw [hr, ok_bind] at h
          injection h with h
          exact ⟨l, rest, rfl, rfl, h.symm⟩

theorem parseRows_perm (ds dsP : List Row) (hperm : ds.Perm dsP) :
    ∀ flat, parseRows ds = Except.ok flat →
      ∃ flatP, parseRows dsP = Except.ok flatP ∧ flat.Perm flatP := by
  induction hperm with
  | nil =>
      intro flat h
      exact ⟨flat, h, List.Perm.refl _⟩
  | cons x hp ih =>
      intro flat h
      obtain ⟨lx, rest, hcx, hrs, rfl⟩ := parseRows_cons_ok x _ _ h
      obtain ⟨restP, hrP, hpermP⟩ := ih rest hrs
      refine ⟨lx ++ restP, ?_, hpermP.append_left lx⟩
      simp only [parseRows]
      rw [hcx, ok_bind, hrP, ok_bind]
  | swap x y l =>
      intro flat h
      obtain ⟨ly, rest1, hcy, h1, rfl⟩ := parseRows_cons_ok y _ _ h
      obtain ⟨lx, rest2, hcx, h2, rfl⟩ := parseRows_cons_ok x _ _ h1
      refine ⟨lx ++ (ly ++ rest2), ?_, ?_⟩
      · simp only [parseRows]
        rw [hcx, hcy, h2, ok_bind, ok_bind, ok_bind, ok_bind]
      · rw [← List.append_assoc, ← List.append_assoc]
        exact List.perm_append_comm.append_right rest2
  | trans h1 h2 ih1 ih2 =>
      intro flat h
      obtain ⟨flat1, hA, hB⟩ := ih1 flat h
      obtain ⟨flat2, hC, hD⟩ := ih2 flat1 hA
      exact ⟨flat2, hC, hB.trans hD⟩

theorem contrib_ok_inv (r : Row) (l : List Entry)
    (h : contrib r = Except.ok l) :
    ∀ e ∈ l, parseId r.id = Except.ok e.1 := by
  unfold contrib at h
  cases hpi : parseId r.id with
  | error e2 => rw [hpi, error_bind] at h; cases h
  | ok tp =>
      rw [hpi, ok_bind] at h
      cases hm : mapEx (fun iraw : ℕ × RawScore =>
          (normalizeScore iraw.2).map fun q =>
            (decide ((iraw.1 : ℤ) < r.num_correct), q)) r.scores.enum with
      | error e2 => rw [hm, error_bind] at h; cases h
      | ok prs =>
          rw [hm, ok_bind] at h
          injection h with h
          intro e he
          rw [← h] at he
          obtain ⟨pr, _, rfl⟩ := List.mem_map.mp he
          rfl

theorem parseRows_key_types (ds : List Row) (flat : List Entry)
    (h : parseRows ds = Except.ok flat)
    (htypes : ∀ r ∈ ds, ∀ ty p, parseId r.id = Except.ok (ty, p) →
      ty = "ref" ∨ ty = "tied") :
    ∀ k ∈ flat.map Prod.fst, k.1 = "ref" ∨ k.1 = "tied" := by
  induction ds generalizing flat with
  | nil =>
      injection h with h
      subst h
      intro k hk
      simp at hk
  | cons r rs ih =>
      obtain ⟨l, rest, hc, hr, rfl⟩ := parseRows_cons_ok r rs flat h
      intro k hk
      rw [List.map_append, List.mem_append] at hk
      rcases hk with hk | hk
      · obtain ⟨e, he, rfl⟩ := List.mem_map.mp hk
        exact htypes r (List.mem_cons_self _ _) e.1.1 e.1.2
          (contrib_ok_inv r l hc e he)
      · exact ih rest hr
          (fun r2 hr2 => htypes r2 (List.mem_cons.mpr (Or.inr hr2))) k hk

/-- C5: the overall score of a successful run is invariant under any
permutation of the dataset rows.  The sample types are restricted to the
data model `{"ref", "tied"}`; outside it two distinct non-`"ref"` type
strings sharing a prompt id would overwrite each other in `tied_stats` in
first-seen order and the score could genuinely depend on the row order.
Order-dependence of the internal dict/set iteration cancels because every
aggregate is a mean, which is order-insensitive in exact arithmetic. -/
theorem C5_permutation_invariance (tF : ℚ → ℚ) (ds dsP : List Row)
    (hperm : ds.Perm dsP)
    (htypes : ∀ r ∈ ds, ∀ ty p, parseId r.id = Except.ok (ty, p) →
      ty = "ref" ∨ ty = "tied")
    (d : List Row) (s : NpVal)
    (h : processSingleModel tF ds = Except.ok (d, s)) :
    processSingleModel tF dsP = Except.ok (dsP.map clearResults, s) := by
  obtain ⟨flat, s2, hpr, hsc, hpair⟩ :=
    (processSingleModel_ok_iff tF ds (d, s)).mp h
  injection hpair with hd hs2
  obtain ⟨flatP, hprP, hfp⟩ := parseRows_perm ds dsP hperm flat hpr
  have hK := parseRows_key_types ds flat hpr htypes
  apply (processSingleModel_ok_iff tF dsP _).mpr
  refine ⟨flatP, s, hprP, ?_, rfl⟩
  apply scoreParsed_perm tF flat flatP hfp hK
  rw [hs2]
  exact hsc

/-- Witness for C5: swapping the two rows of a concrete dataset leaves the
overall score `1.01` unchanged. -/
theorem C5_permutation_invariance_witness :
    ([{ id := "ref:0", num_correct := 1,
        scores := [RawScore.scalar 5, RawScore.scalar 2] },
      { id := "tied:0", num_correct := 2,
        scores := [RawScore.scalar 4, RawScore.scalar 4, RawScore.scalar 1] }] :
      List Row).Perm
      [{ id := "tied:0", num_correct := 2,
         scores := [RawScore.scalar 4, RawScore.scalar 4, RawScore.scalar 1] },
       { id := "ref:0", num_correct := 1,
         scores := [RawScore.scalar 5, RawScore.scalar 2] }] ∧
    processSingleModel tanhZero
      [{ id := "ref:0", num_correct := 1,
         scores := [RawScore.scalar 5, RawScore.scalar 2] },
       { id := "tied:0", num_correct := 2,
         scores := [RawScore.scalar 4, RawScore.scalar 4, RawScore.scalar 1] }] =
      Except.ok
        ([{ id := "ref:0", num_correct := 1,
            scores := [RawScore.scalar 5, RawScore.scalar 2] },
          { id := "tied:0", num_correct := 2,
            scores := [RawScore.scalar 4, RawScore.scalar 4,
              RawScore.scalar 1] }].map clearResults, NpVal.num (101/100)) ∧
    processSingleModel tanhZero
      [{ id := "tied:0", num_correct := 2,
         scores := [RawScore.scalar 4, RawScore.scalar 4, RawScore.scalar 1] },
       { id := "ref:0", num_correct := 1,
         scores := [RawScore.scalar 5, RawScore.scalar 2] }] =
      Except.ok
        ([{ id := "tied:0", num_correct := 2,
            scores := [RawScore.scalar 4, RawScore.scalar 4, RawScore.scalar 1] },
          { id := "ref:0", num_correct := 1,
            scores := [RawScore.scalar 5, RawScore.scalar 2] }].map clearResults,
        NpVal.num (101/100)) :=
  ⟨List.Perm.swap _ _ _,
   by decide,
   C5_permutation_invariance tanhZero
     [{ id := "ref:0", num_correct := 1,
        scores := [RawScore.scalar 5, RawScore.scalar 2] },
      { id := "tied:0", num_correct := 2,
        scores := [RawScore.scalar 4, RawScore.scalar 4, RawScore.scalar 1] }]
     [{ id := "tied:0", num_correct := 2,
        scores := [RawScore.scalar 4, RawScore.scalar 4, RawScore.scalar 1] },
      { id := "ref:0", num_correct := 1,
        scores := [RawScore.scalar 5, RawScore.scalar 2] }]
     (List.Perm.swap _ _ _)
     (by
       intro r hr ty p hpi
       rcases List.mem_cons.mp hr with rfl | hr2
       · have h0 : parseId ({ id := "ref:0", num_correct := 1, scores := [RawScore.scalar 5, RawScore.scalar 2] } : Row).id = Except.ok ("ref", 0) := by decide
         rw [h0] at hpi
         injection hpi with h1
         injection h1 with h2 h3
         exact Or.inl h2.symm
       · rcases List.mem_cons.mp hr2 with rfl | hr3
         · have h0 : parseId ({ id := "tied:0", num_correct := 2, scores := [RawScore.scalar 4, RawScore.scalar 4, RawScore.scalar 1] } : Row).id = Except.ok ("tied", 0) := by decide
           rw [h0] at hpi
           injection hpi with h1
           injection h1 with h2 h3
           exact Or.inr h2.symm
         · cases hr3)
     ([{ id := "ref:0", num_correct := 1,
         scores := [RawScore.scalar 5, RawScore.scalar 2] },
       { id := "tied:0", num_correct := 2,
         scores := [RawScore.scalar 4, RawScore.scalar 4,
           RawScore.scalar 1] }].map clearResults)
     (NpVal.num (101/100))
     (by decide)⟩

end TiesScore
